import Mathlib

set_option maxRecDepth 8000

/-!
Verification development for the Keithley-IV-Scripts repository.

The repository holds two Python scripts driving Keithley 2400 source-measure
units over GPIB: a single-instrument current-voltage sweep
(`KeithleyIVSweep_Mobile_V1.1.py`) and a dual-instrument photovoltaic sweep
(`KeithleyPVSweep_Mobile_V1.py`).  Each script configures its instrument(s),
steps a source voltage from `Vmin` to `Vmax` in increments of `step_size`,
reads back currents, records a time series, shuts the instruments down
(voltage to zero, output off) and writes a tab-separated text file.

The embedding below models the instrument bus as an environment supplying a
wall-clock stream, one query response per query, and a success bit per write.
Engines are state-passing functions producing a trace of issued instrument
commands; numeric values are rationals.  Transport failures and Python
`IndexError`s surface as `Except` errors carrying the state at the failure.
-/

namespace Keithley

/-- Python `int()` applied to a real value: truncation toward zero. -/
def pyInt (q : ℚ) : ℤ := if q < 0 then ⌈q⌉ else ⌊q⌋

/-- The whole-number test `int(voltage) == voltage` from both scripts. -/
def isWhole (q : ℚ) : Bool := decide ((pyInt q : ℚ) = q)

/-- The two instrument handles the scripts drive.  The single-instrument
script only ever uses `primary`; the dual script uses `primary` for
`Volt_Supp_Instr` and `secondary` for `Curr_Read_Instr`. -/
inductive DevId
  | primary
  | secondary
  deriving DecidableEq, Repr

/-- SCPI write commands issued by the scripts, in structured form. -/
inductive Cmd
  | reset
  | sourFuncVolt
  | sourVolt (v : ℚ)
  | sensCurrProt (v : ℚ)
  | sensCurrRangAuto
  | sensFuncCurr
  | outp (b : Bool)
  deriving DecidableEq, Repr

/-- One instrument-bus interaction: a successful write of a command, or a
successful query together with the numeric response it returned. -/
inductive Event
  | write (d : DevId) (c : Cmd)
  | query (d : DevId) (resp : List ℚ)
  deriving DecidableEq, Repr

/-- Environment: wall-clock readings (per `time.time()` call), query
responses (`none` models a transport failure of the query), and a success
bit per write (`false` models a transport failure of the write). -/
structure Env where
  clock : Nat → ℚ
  qresp : Nat → Option (List ℚ)
  wok : Nat → Bool

/-- Failure modes: instrument-bus transport errors and Python `IndexError`
from subscripting a too-short query response. -/
inductive Err
  | transport
  | indexErr
  deriving DecidableEq, Repr

/-- Engine state: counters into the environment's write/query/clock streams
plus the trace of interactions issued so far. -/
structure St where
  wIdx : Nat
  qIdx : Nat
  cIdx : Nat
  trace : List Event
  deriving DecidableEq, Repr

/-- The state at script start. -/
def St.init : St := ⟨0, 0, 0, []⟩

/-- One instrument write (`k2400.write(...)`).  On success the command is
appended to the trace; on transport failure the command never reaches the
instrument and the error propagates with the unchanged state. -/
def doWrite (env : Env) (d : DevId) (c : Cmd) (s : St) : Except (Err × St) St :=
  if env.wok s.wIdx then
    .ok { s with wIdx := s.wIdx + 1, trace := s.trace ++ [.write d c] }
  else
    .error (.transport, s)

/-- One instrument query (`query_ascii_values(':READ?')` or `query('*IDN?')`):
returns the environment's response list or a transport error. -/
def doQuery (env : Env) (d : DevId) (s : St) : Except (Err × St) (List ℚ × St) :=
  match env.qresp s.qIdx with
  | some xs => .ok (xs, { s with qIdx := s.qIdx + 1, trace := s.trace ++ [.query d xs] })
  | none => .error (.transport, s)

/-- One `time.time()` call, reading the environment clock. -/
def readTime (env : Env) (s : St) : ℚ × St :=
  (env.clock s.cIdx, { s with cIdx := s.cIdx + 1 })

/-- A straight-line block of instrument writes, as both scripts issue in
their initializers, pre-loop setup and shutdown tails. -/
def writeSeq (env : Env) (ws : List (DevId × Cmd)) (s : St) : Except (Err × St) St :=
  match ws with
  | [] => .ok s
  | dc :: rest =>
    match doWrite env dc.1 dc.2 s with
    | .ok s' => writeSeq env rest s'
    | .error e => .error e

/-- Initializer of `KeithleyIVSweep_Mobile_V1.1.py` (`initialize_Keithley`):
identification query, then reset, source-function voltage, source voltage 0,
compliance limit hard-coded to `150E-3`, auto-ranging on, sense function
current.  It takes no compliance argument; the script-level
`compliance_current = 0.10` never reaches it. -/
def initialize_Keithley_IV (env : Env) (s : St) : Except (Err × St) St :=
  match doQuery env .primary s with
  | .error e => .error e
  | .ok (_, s1) =>
    writeSeq env
      [(.primary, .reset), (.primary, .sourFuncVolt), (.primary, .sourVolt 0),
       (.primary, .sensCurrProt (150 / 1000)), (.primary, .sensCurrRangAuto),
       (.primary, .sensFuncCurr)] s1

/-- Initializer of `KeithleyPVSweep_Mobile_V1.py`
(`initialize_Keithley(resource_name, compliance_current)`): same sequence
but the compliance limit is the given argument, and the instrument handle
is chosen by the caller. -/
def initialize_Keithley_PV (env : Env) (d : DevId) (compliance_current : ℚ) (s : St) :
    Except (Err × St) St :=
  match doQuery env d s with
  | .error e => .error e
  | .ok (_, s1) =>
    writeSeq env
      [(d, .reset), (d, .sourFuncVolt), (d, .sourVolt 0),
       (d, .sensCurrProt compliance_current), (d, .sensCurrRangAuto),
       (d, .sensFuncCurr)] s1

/-- Sweep parameters of the single-instrument script (the `params` list
unpacked at the head of `Keithley_VOLTAGE_SWEEP`; `compliance_current` is
unpacked but never used by the sweep body). -/
structure IVParams where
  Vmin : ℚ
  Vmax : ℚ
  step_size : ℚ
  compliance_current : ℚ
  deriving DecidableEq, Repr

/-- Sweep parameters of the dual-instrument script. -/
structure PVParams where
  Vmin : ℚ
  Vmax : ℚ
  step_size : ℚ
  compliance_current : ℚ
  read_bias : ℚ
  compliance_read : ℚ
  deriving DecidableEq, Repr

/-- `points = int((Vmax - Vmin) / step_size) + 1`, shared by both scripts. -/
def pointsInt (Vmin Vmax step : ℚ) : ℤ := pyInt ((Vmax - Vmin) / step) + 1

/-- One recorded row of the single-instrument sweep: the four values the
script appends to `t_values`, `voltage_values`, `current_values`,
`power_values` in one iteration. -/
structure SampleIV where
  t : ℚ
  v : ℚ
  c : ℚ
  p : ℚ
  deriving DecidableEq, Repr

/-- One recorded row of the dual-instrument sweep (eight per-iteration
appends: `t, voltage, current, power, voltage_1, current_1, power_1,
power_2`). -/
structure SamplePV where
  t : ℚ
  v : ℚ
  c : ℚ
  p : ℚ
  v1 : ℚ
  c1 : ℚ
  p1 : ℚ
  p2 : ℚ
  deriving DecidableEq, Repr

/-- Result of the single-instrument stepping loop: the recorded series plus
the progress observations printed at whole-number voltages. -/
structure IVOut where
  samples : List SampleIV
  progress : List (ℚ × ℚ)
  deriving DecidableEq, Repr

/-- Result of the dual-instrument stepping loop. -/
structure PVOut where
  samples : List SamplePV
  progress : List (ℚ × ℚ)
  deriving DecidableEq, Repr

/-- The stepping loop of the single-instrument sweep (`for i in range(points)`
body of `Keithley_VOLTAGE_SWEEP` in `KeithleyIVSweep_Mobile_V1.1.py`):
command the voltage, settle, record elapsed time, query the current as
element 1 of the `:READ?` response, derive power, append, and print progress
when the commanded voltage is a whole number. -/
def ivLoop (env : Env) (Vmin step start : ℚ) : Nat → Nat → St → Except (Err × St) (IVOut × St)
  | 0, _, s => .ok (⟨[], []⟩, s)
  | rem + 1, i, s =>
    let v := Vmin + (i : ℚ) * step
    match doWrite env .primary (.sourVolt v) s with
    | .error e => .error e
    | .ok s1 =>
      let tc := readTime env s1
      let t := tc.1 - start
      match doQuery env .primary tc.2 with
      | .error e => .error e
      | .ok (xs, s2) =>
        match xs[1]? with
        | none => .error (.indexErr, s2)
        | some c =>
          match ivLoop env Vmin step start rem (i + 1) s2 with
          | .error e => .error e
          | .ok (out, s3) =>
            .ok (⟨⟨t, v, c, v * c⟩ :: out.samples,
                  (if isWhole v then [(v, c)] else []) ++ out.progress⟩, s3)

/-- The single-instrument sweep engine `Keithley_VOLTAGE_SWEEP` of
`KeithleyIVSweep_Mobile_V1.1.py`: enable output, record the start time, run
the stepping loop, then zero the source voltage and disable output. -/
def Keithley_VOLTAGE_SWEEP_IV (env : Env) (p : IVParams) : Except (Err × St) (IVOut × St) :=
  match doWrite env .primary (.outp true) St.init with
  | .error e => .error e
  | .ok s1 =>
    let tc := readTime env s1
    match ivLoop env p.Vmin p.step_size tc.1 (pointsInt p.Vmin p.Vmax p.step_size).toNat 0 tc.2 with
    | .error e => .error e
    | .ok (out, s2) =>
      match writeSeq env [(.primary, .sourVolt 0), (.primary, .outp false)] s2 with
      | .error e => .error e
      | .ok s3 => .ok (out, s3)

/-- The stepping loop of the dual-instrument sweep: command the primary
voltage, settle, record elapsed time, read the primary current (element 1 of
its `:READ?` response), then read the secondary voltage (element 0) and the
secondary current (element 1) via two separate `:READ?` queries, derive the
three powers, append one row, and print progress at whole-number voltages
using the secondary current. -/
def pvLoop (env : Env) (Vmin step start : ℚ) : Nat → Nat → St → Except (Err × St) (PVOut × St)
  | 0, _, s => .ok (⟨[], []⟩, s)
  | rem + 1, i, s =>
    let v := Vmin + (i : ℚ) * step
    match doWrite env .primary (.sourVolt v) s with
    | .error e => .error e
    | .ok s1 =>
      let tc := readTime env s1
      let t := tc.1 - start
      match doQuery env .primary tc.2 with
      | .error e => .error e
      | .ok (xs, s2) =>
        match xs[1]? with
        | none => .error (.indexErr, s2)
        | some c =>
          match doQuery env .secondary s2 with
          | .error e => .error e
          | .ok (ys, s3) =>
            match ys[0]? with
            | none => .error (.indexErr, s3)
            | some v1 =>
              match doQuery env .secondary s3 with
              | .error e => .error e
              | .ok (zs, s4) =>
                match zs[1]? with
                | none => .error (.indexErr, s4)
                | some c1 =>
                  match pvLoop env Vmin step start rem (i + 1) s4 with
                  | .error e => .error e
                  | .ok (out, s5) =>
                    .ok (⟨⟨t, v, c, v * c, v1, c1, v1 * c1, v * c1⟩ :: out.samples,
                          (if isWhole v then [(v, c1)] else []) ++ out.progress⟩, s5)

/-- The dual-instrument sweep engine `Keithley_VOLTAGE_SWEEP` of
`KeithleyPVSweep_Mobile_V1.py`: enable output on both instruments, command
the secondary static bias and its compliance, record the start time, run the
stepping loop, then zero both source voltages and disable both outputs. -/
def Keithley_VOLTAGE_SWEEP_PV (env : Env) (p : PVParams) : Except (Err × St) (PVOut × St) :=
  match writeSeq env
      [(.primary, .outp true), (.secondary, .outp true),
       (.secondary, .sourVolt p.read_bias), (.secondary, .sensCurrProt p.compliance_read)]
      St.init with
  | .error e => .error e
  | .ok s1 =>
    let tc := readTime env s1
    match pvLoop env p.Vmin p.step_size tc.1 (pointsInt p.Vmin p.Vmax p.step_size).toNat 0 tc.2 with
    | .error e => .error e
    | .ok (out, s2) =>
      match writeSeq env
          [(.primary, .sourVolt 0), (.secondary, .sourVolt 0),
           (.primary, .outp false), (.secondary, .outp false)] s2 with
      | .error e => .error e
      | .ok s3 => .ok (out, s3)

/-! Persisted-file model: the text record each script writes after a
completed sweep, as a list of lines (newline separators elided). -/

/-- Pad a digit string on the left with zeros up to width `w`. -/
def padZeros (w : Nat) (s : String) : String :=
  String.mk (List.replicate (w - s.length) '0') ++ s

/-- Model of Python fixed-point formatting `%.{prec}f` on a rational. -/
def fmtFixed (prec : Nat) (q : ℚ) : String :=
  let n : ℤ := round (q * (10 : ℚ) ^ prec)
  let sign := if n < 0 then "-" else ""
  let m := n.natAbs
  sign ++ toString (m / 10 ^ prec) ++ "." ++ padZeros prec (toString (m % 10 ^ prec))

/-- Exponent suffix of Python scientific notation: sign then at least two
digits. -/
def fmtExpPart (e : ℤ) : String :=
  (if e < 0 then "-" else "+") ++ padZeros 2 (toString e.natAbs)

/-- Model of Python scientific-notation formatting `%.{prec}e` on a
rational: one leading digit, `prec` fractional digits, `e`, signed two-digit
exponent. -/
def fmtSci (prec : Nat) (q : ℚ) : String :=
  if q = 0 then "0." ++ padZeros prec "" ++ "e+00"
  else
    let a := |q|
    let e : ℤ := Int.log 10 a
    let scaled : ℤ := round (a * (10 : ℚ) ^ ((prec : ℤ) - e))
    let me : ℤ × ℤ := if 10 ^ (prec + 1) ≤ scaled then (scaled / 10, e + 1) else (scaled, e)
    let digits := toString me.1.natAbs
    (if q < 0 then "-" else "") ++ digits.take 1 ++ "." ++ digits.drop 1 ++ "e" ++
      fmtExpPart me.2

/-- One data row of the single-instrument file (source line
`f'{t:.6f}\t{v:.2f}\t{c:.6e}\t{p:.6e}'`). -/
def ivRow (sp : SampleIV) : String :=
  fmtFixed 6 sp.t ++ "\t" ++ fmtFixed 2 sp.v ++ "\t" ++ fmtSci 6 sp.c ++ "\t" ++ fmtSci 6 sp.p

/-- One data row of the dual-instrument file. -/
def pvRow (sp : SamplePV) : String :=
  fmtFixed 6 sp.t ++ "\t" ++ fmtFixed 2 sp.v ++ "\t" ++ fmtSci 6 sp.c ++ "\t" ++ fmtSci 6 sp.p
    ++ "\t" ++ fmtFixed 2 sp.v1 ++ "\t" ++ fmtSci 6 sp.c1 ++ "\t" ++ fmtSci 6 sp.p1
    ++ "\t" ++ fmtSci 6 sp.p2

/-- The lines of the text file written by the single-instrument script:
four preamble lines, a blank line, the header, one row per recorded point. -/
def ivFileLines (out : IVOut) : List String :=
  ["*! Laptop Compatible \"Mobile\" Version of QKeithleyControlMaster",
   "*! Project = Fill project details here",
   "#! Fluence / Dose / Condition = Fill measurement details here",
   "#! Type = iv-sweep",
   "",
   "t\t\tV\t\tI\t\tP"] ++ out.samples.map ivRow

/-- The lines of the text file written by the dual-instrument script. -/
def pvFileLines (out : PVOut) : List String :=
  ["*! Laptop Compatible \"Mobile\" Version of QKeithleyControlMaster",
   "*! Project = Fill project details here",
   "#! Fluence / Dose / Condition = Fill measurement details here",
   "#! Type = pv-sweep",
   "",
   "t\t\tV\t\tI\t\tP\t\tV1\t\tI1\t\tP1\t\tP2"] ++ out.samples.map pvRow

/-! Observation helpers used to state the claims. -/

/-- Whether a run finished without a transport error or `IndexError`. -/
def runOk {α : Type} : Except (Err × St) α → Bool
  | .ok _ => true
  | .error _ => false

/-- Final state of an engine run; on failure, the state at the failure. -/
def stOf {α : Type} : Except (Err × St) (α × St) → St
  | .ok os => os.2
  | .error es => es.2

/-- Final state of an initializer run. -/
def stOfI : Except (Err × St) St → St
  | .ok s => s
  | .error es => es.2

/-- Error payload of a failed run (dummy on success). -/
def errOf {α : Type} : Except (Err × St) α → Err × St
  | .ok _ => (.transport, St.init)
  | .error es => es

/-- Recorded output of a single-instrument run (empty on failure). -/
def ivOutOf : Except (Err × St) (IVOut × St) → IVOut
  | .ok os => os.1
  | .error _ => ⟨[], []⟩

/-- Recorded output of a dual-instrument run (empty on failure). -/
def pvOutOf : Except (Err × St) (PVOut × St) → PVOut
  | .ok os => os.1
  | .error _ => ⟨[], []⟩

/-- Device an event was addressed to. -/
def devOf : Event → DevId
  | .write d _ => d
  | .query d _ => d

/-- The sub-trace of interactions with device `d`, in order. -/
def evTo (d : DevId) (tr : List Event) : List Event :=
  tr.filter (fun e => devOf e == d)

/-- The voltage setpoints commanded over the whole trace, in order. -/
def sourVoltsOf (tr : List Event) : List ℚ :=
  tr.filterMap (fun e =>
    match e with
    | .write _ (.sourVolt v) => some v
    | _ => none)

/-- The commands written to device `d`, in order. -/
def cmdWritesTo (d : DevId) (tr : List Event) : List Cmd :=
  tr.filterMap (fun e =>
    match e with
    | .write d' c => if d' = d then some c else none
    | .query _ _ => none)

/-- Element 0 of the `n`-th query response, when present. -/
def q0 (env : Env) (n : Nat) : Option ℚ := (env.qresp n).bind (fun xs => xs[0]?)

/-- Element 1 of the `n`-th query response, when present. -/
def q1 (env : Env) (n : Nat) : Option ℚ := (env.qresp n).bind (fun xs => xs[1]?)

/-! Closed-form descriptions of one loop iteration of each engine, used to
characterise successful runs. -/

/-- The row recorded by iteration `i` of the single-instrument loop when its
query sits at stream position `qi` and its clock read at position `ci`. -/
def ivSampleSpec (env : Env) (Vmin step start : ℚ) (i qi ci : Nat) : SampleIV :=
  let v := Vmin + (i : ℚ) * step
  let c := (q1 env qi).getD 0
  ⟨env.clock ci - start, v, c, v * c⟩

/-- The progress observation (if any) of iteration `i` of the
single-instrument loop. -/
def ivProgSpec (env : Env) (Vmin step : ℚ) (i qi : Nat) : List (ℚ × ℚ) :=
  let v := Vmin + (i : ℚ) * step
  if isWhole v then [(v, (q1 env qi).getD 0)] else []

/-- The trace slice of iteration `i` of the single-instrument loop. -/
def ivIterTrace (env : Env) (Vmin step : ℚ) (i qi : Nat) : List Event :=
  [.write .primary (.sourVolt (Vmin + (i : ℚ) * step)),
   .query .primary ((env.qresp qi).getD [])]

/-- The row recorded by iteration `i` of the dual-instrument loop when its
first query of the iteration sits at stream position `qi`. -/
def pvSampleSpec (env : Env) (Vmin step start : ℚ) (i qi ci : Nat) : SamplePV :=
  let v := Vmin + (i : ℚ) * step
  let c := (q1 env qi).getD 0
  let v1 := (q0 env (qi + 1)).getD 0
  let c1 := (q1 env (qi + 2)).getD 0
  ⟨env.clock ci - start, v, c, v * c, v1, c1, v1 * c1, v * c1⟩

/-- The progress observation (if any) of iteration `i` of the
dual-instrument loop: swept voltage paired with the secondary current. -/
def pvProgSpec (env : Env) (Vmin step : ℚ) (i qi : Nat) : List (ℚ × ℚ) :=
  let v := Vmin + (i : ℚ) * step
  if isWhole v then [(v, (q1 env (qi + 2)).getD 0)] else []

/-- The trace slice of iteration `i` of the dual-instrument loop: a primary
voltage command, a primary read, and two separate secondary reads. -/
def pvIterTrace (env : Env) (Vmin step : ℚ) (i qi : Nat) : List Event :=
  [.write .primary (.sourVolt (Vmin + (i : ℚ) * step)),
   .query .primary ((env.qresp qi).getD []),
   .query .secondary ((env.qresp (qi + 1)).getD []),
   .query .secondary ((env.qresp (qi + 2)).getD [])]


/-! Aggregate descriptions of complete loop runs, and concrete environments
used to exercise the engines on small inputs. -/

/-- Aggregate success output of `ivLoop`. -/
def ivOutSpec (env : Env) (Vmin step start : ℚ) (i0 qi ci rem : Nat) : IVOut :=
  ⟨(List.range rem).map (fun j => ivSampleSpec env Vmin step start (i0 + j) (qi + j) (ci + j)),
   (List.range rem).flatMap (fun j => ivProgSpec env Vmin step (i0 + j) (qi + j))⟩

/-- Final state of a successful `ivLoop` run. -/
def ivStSpec (env : Env) (Vmin step : ℚ) (i0 rem : Nat) (s : St) : St :=
  ⟨s.wIdx + rem, s.qIdx + rem, s.cIdx + rem,
   s.trace ++ (List.range rem).flatMap (fun j => ivIterTrace env Vmin step (i0 + j) (s.qIdx + j))⟩

/-- Success condition for `rem` iterations of the single-instrument loop
started at state `s`: every write succeeds and every query response has an
element at index 1. -/
def ivGood (env : Env) (s : St) (rem : Nat) : Prop :=
  ∀ j, j < rem → env.wok (s.wIdx + j) = true ∧ (q1 env (s.qIdx + j)).isSome = true

/-- Number of loop iterations the single-instrument engine executes. -/
def ivN (p : IVParams) : Nat := (pointsInt p.Vmin p.Vmax p.step_size).toNat

/-- Loop-entry state of the single-instrument engine. -/
def ivS2 : St := ⟨1, 0, 1, [.write .primary (.outp true)]⟩

/-- Aggregate success output of `pvLoop`. -/
def pvOutSpec (env : Env) (Vmin step start : ℚ) (i0 qi ci rem : Nat) : PVOut :=
  ⟨(List.range rem).map (fun j => pvSampleSpec env Vmin step start (i0 + j) (qi + 3 * j) (ci + j)),
   (List.range rem).flatMap (fun j => pvProgSpec env Vmin step (i0 + j) (qi + 3 * j))⟩

/-- Final state of a successful `pvLoop` run. -/
def pvStSpec (env : Env) (Vmin step : ℚ) (i0 rem : Nat) (s : St) : St :=
  ⟨s.wIdx + rem, s.qIdx + 3 * rem, s.cIdx + rem,
   s.trace ++ (List.range rem).flatMap
     (fun j => pvIterTrace env Vmin step (i0 + j) (s.qIdx + 3 * j))⟩

/-- Success condition for `rem` iterations of the dual-instrument loop:
every write succeeds, every primary response has an element at index 1,
every first secondary response an element at index 0 and every second
secondary response an element at index 1. -/
def pvGood (env : Env) (s : St) (rem : Nat) : Prop :=
  ∀ j, j < rem → env.wok (s.wIdx + j) = true ∧
    (q1 env (s.qIdx + 3 * j)).isSome = true ∧
    (q0 env (s.qIdx + 3 * j + 1)).isSome = true ∧
    (q1 env (s.qIdx + 3 * j + 2)).isSome = true

/-- Number of loop iterations the dual-instrument engine executes. -/
def pvN (p : PVParams) : Nat := (pointsInt p.Vmin p.Vmax p.step_size).toNat

/-- Pre-loop trace of the dual-instrument engine: both outputs on, secondary
bias and secondary compliance. -/
def pvPre (p : PVParams) : List Event :=
  [.write .primary (.outp true), .write .secondary (.outp true),
   .write .secondary (.sourVolt p.read_bias), .write .secondary (.sensCurrProt p.compliance_read)]

/-- Loop-entry state of the dual-instrument engine. -/
def pvS2 (p : PVParams) : St := ⟨4, 0, 1, pvPre p⟩

/-- Shutdown trace shared by the tail of the dual-instrument engine. -/
def pvShut : List Event :=
  [.write .primary (.sourVolt 0), .write .secondary (.sourVolt 0),
   .write .primary (.outp false), .write .secondary (.outp false)]

/-- A benign environment: integer clock, every write succeeds, every query
answers `[5, 3]`. -/
def envW : Env := ⟨fun n => (n : ℚ), fun _ => some [5, 3], fun _ => true⟩

/-- An environment whose queries all fail at the transport layer. -/
def envE : Env := ⟨fun n => (n : ℚ), fun _ => none, fun _ => true⟩

/-- An environment whose queries answer a single-element list, too short
for the index-1 current read. -/
def envS : Env := ⟨fun n => (n : ℚ), fun _ => some [7], fun _ => true⟩

/-- A two-point single-instrument sweep configuration. -/
def cfgIVW : IVParams := ⟨0, 1, 1, 1 / 10⟩

/-- A two-point dual-instrument sweep configuration. -/
def cfgPVW : PVParams := ⟨0, 1, 1, 35 / 100, 0, 1 / 10⟩


theorem doWrite_ok {env : Env} {d : DevId} {c : Cmd} {s s' : St}
    (h : doWrite env d c s = .ok s') :
    env.wok s.wIdx = true ∧ s' = ⟨s.wIdx + 1, s.qIdx, s.cIdx, s.trace ++ [.write d c]⟩ := by
  unfold doWrite at h
  by_cases hw : env.wok s.wIdx
  · rw [if_pos hw] at h
    exact ⟨hw, (Except.ok.inj h).symm⟩
  · rw [if_neg hw] at h
    cases h

theorem doWrite_err {env : Env} {d : DevId} {c : Cmd} {s : St} {e : Err × St}
    (h : doWrite env d c s = .error e) :
    env.wok s.wIdx = false ∧ e = (.transport, s) := by
  unfold doWrite at h
  by_cases hw : env.wok s.wIdx
  · rw [if_pos hw] at h; cases h
  · rw [if_neg hw] at h
    exact ⟨by simpa using hw, (Except.error.inj h).symm⟩

theorem doQuery_ok {env : Env} {d : DevId} {s : St} {xs : List ℚ} {s' : St}
    (h : doQuery env d s = .ok (xs, s')) :
    env.qresp s.qIdx = some xs ∧
      s' = ⟨s.wIdx, s.qIdx + 1, s.cIdx, s.trace ++ [.query d xs]⟩ := by
  unfold doQuery at h
  cases hq : env.qresp s.qIdx with
  | none => rw [hq] at h; cases h
  | some ys =>
    rw [hq] at h
    obtain ⟨h1, h2⟩ := Prod.mk.inj (Except.ok.inj h)
    subst h1
    exact ⟨rfl, h2.symm⟩

theorem doQuery_err {env : Env} {d : DevId} {s : St} {e : Err × St}
    (h : doQuery env d s = .error e) :
    env.qresp s.qIdx = none ∧ e = (.transport, s) := by
  unfold doQuery at h
  cases hq : env.qresp s.qIdx with
  | none =>
    rw [hq] at h
    exact ⟨rfl, (Except.error.inj h).symm⟩
  | some ys => rw [hq] at h; cases h

theorem writeSeq_ok_char (env : Env) :
    ∀ ws (s s' : St), writeSeq env ws s = .ok s' →
      s' = ⟨s.wIdx + ws.length, s.qIdx, s.cIdx,
            s.trace ++ ws.map (fun dc => Event.write dc.1 dc.2)⟩ := by
  intro ws
  induction ws with
  | nil =>
    intro s s' h
    rw [writeSeq] at h
    rw [← Except.ok.inj h]
    simp
  | cons dc rest ih =>
    intro s s' h
    rw [writeSeq] at h
    cases hw : doWrite env dc.1 dc.2 s with
    | error e => rw [hw] at h; cases h
    | ok s1 =>
      rw [hw] at h
      obtain ⟨hok, hs1⟩ := doWrite_ok hw
      subst hs1
      rw [ih _ _ h]
      simp only [St.mk.injEq]
      exact ⟨by simp only [List.length_cons]; omega, trivial, trivial, by simp⟩

theorem writeSeq_err_char (env : Env) :
    ∀ ws (s : St) (e : Err × St), writeSeq env ws s = .error e →
      e.1 = .transport ∧ ∃ k, k < ws.length ∧
        e.2.trace = s.trace ++ (ws.take k).map (fun dc => Event.write dc.1 dc.2) := by
  intro ws
  induction ws with
  | nil =>
    intro s e h
    rw [writeSeq] at h
    cases h
  | cons dc rest ih =>
    intro s e h
    rw [writeSeq] at h
    cases hw : doWrite env dc.1 dc.2 s with
    | error e' =>
      rw [hw] at h
      obtain ⟨-, he⟩ := doWrite_err hw
      rw [← Except.error.inj h, he]
      exact ⟨rfl, 0, by simp⟩
    | ok s1 =>
      rw [hw] at h
      obtain ⟨hok, hs1⟩ := doWrite_ok hw
      obtain ⟨h1, k, hk, htr⟩ := ih _ _ h
      refine ⟨h1, k + 1, by simpa using hk, ?_⟩
      rw [htr, hs1]
      simp

theorem range_succ_map_shift {α : Type} (f g : Nat → α) (n : Nat) (h : ∀ j, f (j + 1) = g j) :
    (List.range (n + 1)).map f = f 0 :: (List.range n).map g := by
  rw [List.range_succ_eq_map, List.map_cons, List.map_map]
  exact congrArg _ (List.map_congr_left (fun j _ => h j))

theorem range_succ_flatMap_shift {α : Type} (f g : Nat → List α) (n : Nat)
    (h : ∀ j, f (j + 1) = g j) :
    (List.range (n + 1)).flatMap f = f 0 ++ (List.range n).flatMap g := by
  rw [List.range_succ_eq_map, List.flatMap_cons]
  congr 1
  rw [List.flatMap, List.flatMap, List.map_map]
  exact congrArg _ (List.map_congr_left (fun j _ => h j))

theorem ivLoop_eq_ok (env : Env) (Vmin step start : ℚ) :
    ∀ rem i (s : St), ivGood env s rem →
      ivLoop env Vmin step start rem i s =
        .ok (ivOutSpec env Vmin step start i s.qIdx s.cIdx rem, ivStSpec env Vmin step i rem s) := by
  intro rem
  induction rem with
  | zero =>
    intro i s hg
    rw [ivLoop]
    simp [ivOutSpec, ivStSpec]
  | succ rem ih =>
    intro i s hg
    obtain ⟨hw0, hq0⟩ := hg 0 (by omega)
    rw [Nat.add_zero] at hw0 hq0
    obtain ⟨xs, hxs, c, hc⟩ : ∃ xs, env.qresp s.qIdx = some xs ∧ ∃ c, xs[1]? = some c := by
      rw [q1] at hq0
      cases hqq : env.qresp s.qIdx with
      | none => rw [hqq] at hq0; simp at hq0
      | some xs =>
        rw [hqq] at hq0
        simp only [Option.some_bind] at hq0
        cases hgg : xs[1]? with
        | none => rw [hgg] at hq0; simp at hq0
        | some c => exact ⟨xs, rfl, c, hgg⟩
    rw [ivLoop, doWrite, if_pos hw0]
    simp only [readTime, doQuery]
    simp only [hxs, hc]
    have hg' : ivGood env (⟨s.wIdx + 1, s.qIdx + 1, s.cIdx + 1,
        s.trace ++ [.write .primary (.sourVolt (Vmin + (i : ℚ) * step))] ++
          [.query .primary xs]⟩ : St) rem := by
      intro j hj
      obtain ⟨h1, h2⟩ := hg (j + 1) (by omega)
      constructor
      · simpa [Nat.add_assoc, Nat.add_comm 1 j] using h1
      · simpa [Nat.add_assoc, Nat.add_comm 1 j] using h2
    rw [ih (i + 1) _ hg']
    simp only [Except.ok.injEq, Prod.mk.injEq]
    have hq1c : q1 env s.qIdx = some c := by rw [q1, hxs]; simpa using hc
    have hshift1 : ∀ j : Nat,
        ivSampleSpec env Vmin step start (i + (j + 1)) (s.qIdx + (j + 1)) (s.cIdx + (j + 1)) =
          ivSampleSpec env Vmin step start (i + 1 + j) (s.qIdx + 1 + j) (s.cIdx + 1 + j) := by
      intro j
      have e1 : i + (j + 1) = i + 1 + j := by omega
      have e2 : s.qIdx + (j + 1) = s.qIdx + 1 + j := by omega
      have e3 : s.cIdx + (j + 1) = s.cIdx + 1 + j := by omega
      rw [e1, e2, e3]
    have hshift2 : ∀ j : Nat,
        ivProgSpec env Vmin step (i + (j + 1)) (s.qIdx + (j + 1)) =
          ivProgSpec env Vmin step (i + 1 + j) (s.qIdx + 1 + j) := by
      intro j
      have e1 : i + (j + 1) = i + 1 + j := by omega
      have e2 : s.qIdx + (j + 1) = s.qIdx + 1 + j := by omega
      rw [e1, e2]
    have hshift3 : ∀ j : Nat,
        ivIterTrace env Vmin step (i + (j + 1)) (s.qIdx + (j + 1)) =
          ivIterTrace env Vmin step (i + 1 + j) (s.qIdx + 1 + j) := by
      intro j
      have e1 : i + (j + 1) = i + 1 + j := by omega
      have e2 : s.qIdx + (j + 1) = s.qIdx + 1 + j := by omega
      rw [e1, e2]
    constructor
    · conv_rhs => rw [ivOutSpec]
      conv_rhs => rw [range_succ_map_shift _ _ rem hshift1, range_succ_flatMap_shift _ _ rem hshift2]
      simp [ivOutSpec, ivSampleSpec, ivProgSpec, hq1c]
    · conv_rhs => rw [ivStSpec]
      conv_rhs => rw [range_succ_flatMap_shift _ _ rem hshift3]
      rw [ivStSpec]
      simp only [St.mk.injEq]
      refine ⟨by omega, by omega, by omega, ?_⟩
      simp [ivIterTrace, hxs, List.append_assoc]

theorem ivLoop_err_of_bad (env : Env) (Vmin step start : ℚ) :
    ∀ rem i (s : St), ¬ ivGood env s rem →
      ∃ e, ivLoop env Vmin step start rem i s = .error e := by
  intro rem
  induction rem with
  | zero =>
    intro i s hbad
    exact absurd (fun j hj => absurd hj (by omega)) hbad
  | succ rem ih =>
    intro i s hbad
    by_cases hw0 : env.wok s.wIdx = true
    · by_cases hq0 : (q1 env s.qIdx).isSome = true
      · obtain ⟨xs, hxs, c, hc⟩ : ∃ xs, env.qresp s.qIdx = some xs ∧ ∃ c, xs[1]? = some c := by
          rw [q1] at hq0
          cases hqq : env.qresp s.qIdx with
          | none => rw [hqq] at hq0; simp at hq0
          | some xs =>
            rw [hqq] at hq0
            simp only [Option.some_bind] at hq0
            cases hgg : xs[1]? with
            | none => rw [hgg] at hq0; simp at hq0
            | some c => exact ⟨xs, rfl, c, hgg⟩
        have hbad' : ¬ ivGood env (⟨s.wIdx + 1, s.qIdx + 1, s.cIdx + 1,
            s.trace ++ [.write .primary (.sourVolt (Vmin + (i : ℚ) * step))] ++
              [.query .primary xs]⟩ : St) rem := by
          intro hg'
          refine hbad (fun j hj => ?_)
          cases j with
          | zero => exact ⟨by simpa using hw0, by simpa using hq0⟩
          | succ j =>
            obtain ⟨h1, h2⟩ := hg' j (by omega)
            constructor
            · simpa [Nat.add_assoc, Nat.add_comm 1 j] using h1
            · simpa [Nat.add_assoc, Nat.add_comm 1 j] using h2
        obtain ⟨e, he⟩ := ih (i + 1) _ hbad'
        refine ⟨e, ?_⟩
        rw [ivLoop, doWrite, if_pos hw0]
        simp only [readTime, doQuery]
        simp only [hxs, hc]
        rw [he]
      · -- query fails: either no response or response too short
        rw [q1] at hq0
        cases hqq : env.qresp s.qIdx with
        | none =>
          refine ⟨(.transport, ⟨s.wIdx + 1, s.qIdx, s.cIdx + 1,
            s.trace ++ [.write .primary (.sourVolt (Vmin + (i : ℚ) * step))]⟩), ?_⟩
          rw [ivLoop, doWrite, if_pos hw0]
          simp only [readTime, doQuery]
          simp only [hqq]
        | some xs =>
          rw [hqq] at hq0
          simp only [Option.some_bind] at hq0
          cases hgg : xs[1]? with
          | none =>
            refine ⟨(.indexErr, ⟨s.wIdx + 1, s.qIdx + 1, s.cIdx + 1,
              s.trace ++ [.write .primary (.sourVolt (Vmin + (i : ℚ) * step))] ++
                [.query .primary xs]⟩), ?_⟩
            rw [ivLoop, doWrite, if_pos hw0]
            simp only [readTime, doQuery]
            simp only [hqq, hgg]
          | some c => rw [hgg] at hq0; simp at hq0
    · refine ⟨(.transport, s), ?_⟩
      rw [ivLoop, doWrite, if_neg hw0]

theorem ivLoop_err_trace (env : Env) (Vmin step start : ℚ) :
    ∀ rem i (s : St) e, ivLoop env Vmin step start rem i s = .error e →
      ∃ ext, e.2.trace = s.trace ++ ext ∧
        ∀ ev ∈ ext, (∃ v, ev = Event.write .primary (.sourVolt v)) ∨
          ∃ xs, ev = Event.query .primary xs := by
  intro rem
  induction rem with
  | zero => intro i s e h; rw [ivLoop] at h; cases h
  | succ rem ih =>
    intro i s e h
    rw [ivLoop] at h
    by_cases hw0 : env.wok s.wIdx = true
    · rw [doWrite, if_pos hw0] at h
      simp only [readTime, doQuery] at h
      cases hqq : env.qresp s.qIdx with
      | none =>
        simp only [hqq] at h
        obtain rfl := Except.error.inj h
        refine ⟨[.write .primary (.sourVolt (Vmin + (i : ℚ) * step))], rfl, ?_⟩
        intro ev hev
        simp only [List.mem_singleton] at hev
        exact Or.inl ⟨_, hev⟩
      | some xs =>
        simp only [hqq] at h
        cases hgg : xs[1]? with
        | none =>
          simp only [hgg] at h
          obtain rfl := Except.error.inj h
          refine ⟨[.write .primary (.sourVolt (Vmin + (i : ℚ) * step)),
            .query .primary xs], by simp, ?_⟩
          intro ev hev
          simp only [List.mem_cons, List.mem_singleton] at hev
          rcases hev with h1 | h1 | h1
          · exact Or.inl ⟨_, h1⟩
          · exact Or.inr ⟨_, h1⟩
          · cases h1
        | some c =>
          simp only [hgg] at h
          cases hrec : ivLoop env Vmin step start rem (i + 1)
              (⟨s.wIdx + 1, s.qIdx + 1, s.cIdx + 1,
                s.trace ++ [.write .primary (.sourVolt (Vmin + (i : ℚ) * step))] ++
                  [.query .primary xs]⟩ : St) with
          | error e' =>
            rw [hrec] at h
            obtain rfl := Except.error.inj h
            obtain ⟨ext, hext, hev⟩ := ih (i + 1) _ e' hrec
            refine ⟨[Event.write .primary (.sourVolt (Vmin + (i : ℚ) * step)),
              Event.query .primary xs] ++ ext, ?_, ?_⟩
            · rw [hext]
              simp
            · intro ev hv
              rcases List.mem_append.mp hv with h1 | h1
              · simp only [List.mem_cons, List.mem_singleton] at h1
                rcases h1 with h2 | h2 | h2
                · exact Or.inl ⟨_, h2⟩
                · exact Or.inr ⟨_, h2⟩
                · cases h2
              · exact hev ev h1
          | ok os =>
            obtain ⟨out, s3⟩ := os
            rw [hrec] at h
            simp at h
    · rw [doWrite, if_neg hw0] at h
      obtain rfl := Except.error.inj h
      exact ⟨[], by simp, by simp⟩

theorem ivLoop_ok_inv (env : Env) (Vmin step start : ℚ) {rem i : Nat} {s : St}
    {out : IVOut} {s' : St}
    (h : ivLoop env Vmin step start rem i s = .ok (out, s')) :
    ivGood env s rem ∧
      out = ivOutSpec env Vmin step start i s.qIdx s.cIdx rem ∧
      s' = ivStSpec env Vmin step i rem s := by
  by_cases hg : ivGood env s rem
  · rw [ivLoop_eq_ok env Vmin step start rem i s hg] at h
    obtain ⟨h1, h2⟩ := Prod.mk.inj (Except.ok.inj h)
    exact ⟨hg, h1.symm, h2.symm⟩
  · obtain ⟨e, he⟩ := ivLoop_err_of_bad env Vmin step start rem i s hg
    rw [he] at h
    cases h

theorem ivRun_ok_inv (env : Env) (p : IVParams) {out : IVOut} {s' : St}
    (h : Keithley_VOLTAGE_SWEEP_IV env p = .ok (out, s')) :
    env.wok 0 = true ∧ ivGood env ivS2 (ivN p) ∧
      out = ivOutSpec env p.Vmin p.step_size (env.clock 0) 0 0 1 (ivN p) ∧
      s'.trace = ([.write .primary (.outp true)] ++
        (List.range (ivN p)).flatMap
          (fun j => ivIterTrace env p.Vmin p.step_size (0 + j) (0 + j))) ++
        [.write .primary (.sourVolt 0), .write .primary (.outp false)] := by
  rw [Keithley_VOLTAGE_SWEEP_IV] at h
  by_cases hw0 : env.wok 0 = true
  · rw [doWrite] at h
    simp only [St.init, hw0, if_true, Nat.zero_add, List.nil_append] at h
    simp only [readTime] at h
    cases hloop : ivLoop env p.Vmin p.step_size (env.clock 0)
        (pointsInt p.Vmin p.Vmax p.step_size).toNat 0 ivS2 with
    | error e =>
      rw [ivS2] at hloop
      rw [hloop] at h
      replace h : (Except.error e : Except (Err × St) (IVOut × St)) = Except.ok (out, s') := h
      cases h
    | ok os =>
      obtain ⟨out0, s2⟩ := os
      rw [ivS2] at hloop
      rw [hloop] at h
      obtain ⟨hgood, hout0, hs2⟩ := ivLoop_ok_inv env p.Vmin p.step_size (env.clock 0) hloop
      replace h :
          (match writeSeq env [(DevId.primary, Cmd.sourVolt 0), (DevId.primary, Cmd.outp false)]
              s2 with
            | Except.error e => Except.error e
            | Except.ok s3 => Except.ok (out0, s3)) = Except.ok (out, s') := h
      cases hws : writeSeq env [(.primary, .sourVolt 0), (.primary, .outp false)] s2 with
      | error e =>
        rw [hws] at h
        cases h
      | ok s3 =>
        rw [hws] at h
        obtain ⟨h1, h2⟩ := Prod.mk.inj (Except.ok.inj h)
        subst h1
        subst h2
        have hs3 := writeSeq_ok_char env _ _ _ hws
        refine ⟨hw0, by rw [ivS2]; exact hgood, by rw [ivN]; exact hout0, ?_⟩
        rw [hs3, hs2]
        rw [ivStSpec]
        simp [ivN]
  · rw [doWrite] at h
    simp only [St.init, hw0] at h
    simp at h

theorem ivRun_err_inv (env : Env) (p : IVParams) {e : Err × St}
    (h : Keithley_VOLTAGE_SWEEP_IV env p = .error e) :
    ∀ d : DevId, Event.write d (.outp false) ∉ e.2.trace := by
  rw [Keithley_VOLTAGE_SWEEP_IV] at h
  by_cases hw0 : env.wok 0 = true
  · rw [doWrite] at h
    simp only [St.init, hw0, if_true, Nat.zero_add, List.nil_append, readTime] at h
    cases hloop : ivLoop env p.Vmin p.step_size (env.clock 0)
        (pointsInt p.Vmin p.Vmax p.step_size).toNat 0
        (⟨1, 0, 1, [.write .primary (.outp true)]⟩ : St) with
    | error e' =>
      rw [hloop] at h
      replace h : (Except.error e' : Except (Err × St) (IVOut × St)) = Except.error e := h
      obtain rfl := Except.error.inj h
      obtain ⟨ext, hext, hev⟩ := ivLoop_err_trace env p.Vmin p.step_size (env.clock 0) _ _ _ _ hloop
      intro d hd
      rw [hext] at hd
      rcases List.mem_append.mp hd with h1 | h1
      · simp at h1
      · rcases hev _ h1 with ⟨v, hv⟩ | ⟨xs, hxs⟩ <;> simp_all
    | ok os =>
      obtain ⟨out0, s2⟩ := os
      rw [hloop] at h
      obtain ⟨hgood, hout0, hs2⟩ := ivLoop_ok_inv env p.Vmin p.step_size (env.clock 0) hloop
      replace h :
          (match writeSeq env [(DevId.primary, Cmd.sourVolt 0), (DevId.primary, Cmd.outp false)]
              s2 with
            | Except.error e => Except.error e
            | Except.ok s3 => Except.ok (out0, s3)) = Except.error e := h
      cases hws : writeSeq env [(.primary, .sourVolt 0), (.primary, .outp false)] s2 with
      | ok s3 => rw [hws] at h; cases h
      | error e2 =>
        rw [hws] at h
        obtain rfl := Except.error.inj h
        obtain ⟨-, k, hk, htr⟩ := writeSeq_err_char env _ _ _ hws
        intro d hd
        rw [htr, hs2, ivStSpec] at hd
        simp only [List.length_cons, List.length_nil] at hk
        rcases List.mem_append.mp hd with h1 | h1
        · rcases List.mem_append.mp h1 with h2 | h2
          · simp at h2
          · obtain ⟨j, -, hj⟩ := List.mem_flatMap.mp h2
            rw [ivIterTrace] at hj
            simp at hj
        · match k, hk with
          | 0, _ => simp at h1
          | 1, _ => simp at h1
  · rw [doWrite] at h
    simp only [St.init, hw0] at h
    replace h : (Except.error ((Err.transport, (⟨0, 0, 0, []⟩ : St)) : Err × St) :
        Except (Err × St) (IVOut × St)) = Except.error e := h
    obtain rfl := Except.error.inj h
    intro d hd
    simp at hd

theorem pvLoop_eq_ok (env : Env) (Vmin step start : ℚ) :
    ∀ rem i (s : St), pvGood env s rem →
      pvLoop env Vmin step start rem i s =
        .ok (pvOutSpec env Vmin step start i s.qIdx s.cIdx rem, pvStSpec env Vmin step i rem s) := by
  intro rem
  induction rem with
  | zero =>
    intro i s hg
    rw [pvLoop]
    simp [pvOutSpec, pvStSpec]
  | succ rem ih =>
    intro i s hg
    obtain ⟨hw0, hqa, hqb, hqc⟩ := hg 0 (by omega)
    rw [Nat.add_zero] at hw0
    have hqa' : (q1 env s.qIdx).isSome = true := by simpa using hqa
    have hqb' : (q0 env (s.qIdx + 1)).isSome = true := by simpa using hqb
    have hqc' : (q1 env (s.qIdx + 2)).isSome = true := by simpa using hqc
    obtain ⟨xs, hxs, c, hc⟩ : ∃ xs, env.qresp s.qIdx = some xs ∧ ∃ c, xs[1]? = some c := by
      rw [q1] at hqa'
      cases hqq : env.qresp s.qIdx with
      | none => rw [hqq] at hqa'; simp at hqa'
      | some xs =>
        rw [hqq] at hqa'
        simp only [Option.some_bind] at hqa'
        cases hgg : xs[1]? with
        | none => rw [hgg] at hqa'; simp at hqa'
        | some c => exact ⟨xs, rfl, c, hgg⟩
    obtain ⟨ys, hys, v1, hv1⟩ : ∃ ys, env.qresp (s.qIdx + 1) = some ys ∧
        ∃ v1, ys[0]? = some v1 := by
      rw [q0] at hqb'
      cases hqq : env.qresp (s.qIdx + 1) with
      | none => rw [hqq] at hqb'; simp at hqb'
      | some ys =>
        rw [hqq] at hqb'
        simp only [Option.some_bind] at hqb'
        cases hgg : ys[0]? with
        | none => rw [hgg] at hqb'; simp at hqb'
        | some v1 => exact ⟨ys, rfl, v1, hgg⟩
    obtain ⟨zs, hzs, c1, hc1⟩ : ∃ zs, env.qresp (s.qIdx + 1 + 1) = some zs ∧
        ∃ c1, zs[1]? = some c1 := by
      rw [q1] at hqc'
      have e2 : s.qIdx + 2 = s.qIdx + 1 + 1 := by omega
      rw [e2] at hqc'
      cases hqq : env.qresp (s.qIdx + 1 + 1) with
      | none => rw [hqq] at hqc'; simp at hqc'
      | some zs =>
        rw [hqq] at hqc'
        simp only [Option.some_bind] at hqc'
        cases hgg : zs[1]? with
        | none => rw [hgg] at hqc'; simp at hqc'
        | some c1 => exact ⟨zs, rfl, c1, hgg⟩
    rw [pvLoop, doWrite, if_pos hw0]
    simp only [readTime, doQuery]
    simp only [hxs, hc, hys, hv1, hzs, hc1]
    have hg' : pvGood env (⟨s.wIdx + 1, s.qIdx + 1 + 1 + 1, s.cIdx + 1,
        s.trace ++ [.write .primary (.sourVolt (Vmin + (i : ℚ) * step))] ++
          [.query .primary xs] ++ [.query .secondary ys] ++ [.query .secondary zs]⟩ : St)
        rem := by
      intro j hj
      obtain ⟨h1, h2, h3, h4⟩ := hg (j + 1) (by omega)
      refine ⟨?_, ?_, ?_, ?_⟩
      · have e : s.wIdx + 1 + j = s.wIdx + (j + 1) := by omega
        rw [e]; exact h1
      · have e : s.qIdx + 1 + 1 + 1 + 3 * j = s.qIdx + 3 * (j + 1) := by omega
        rw [e]; exact h2
      · have e : s.qIdx + 1 + 1 + 1 + 3 * j + 1 = s.qIdx + 3 * (j + 1) + 1 := by omega
        rw [e]; exact h3
      · have e : s.qIdx + 1 + 1 + 1 + 3 * j + 2 = s.qIdx + 3 * (j + 1) + 2 := by omega
        rw [e]; exact h4
    rw [ih (i + 1) _ hg']
    simp only [Except.ok.injEq, Prod.mk.injEq]
    have hq1c : q1 env s.qIdx = some c := by rw [q1, hxs]; simpa using hc
    have hq0v1 : q0 env (s.qIdx + 1) = some v1 := by rw [q0, hys]; simpa using hv1
    have hq1c1 : q1 env (s.qIdx + 2) = some c1 := by
      rw [q1]
      have e2 : s.qIdx + 2 = s.qIdx + 1 + 1 := by omega
      rw [e2, hzs]
      simpa using hc1
    have hshift1 : ∀ j : Nat,
        pvSampleSpec env Vmin step start (i + (j + 1)) (s.qIdx + 3 * (j + 1)) (s.cIdx + (j + 1)) =
          pvSampleSpec env Vmin step start (i + 1 + j) (s.qIdx + 1 + 1 + 1 + 3 * j)
            (s.cIdx + 1 + j) := by
      intro j
      have e1 : i + (j + 1) = i + 1 + j := by omega
      have e2 : s.qIdx + 3 * (j + 1) = s.qIdx + 1 + 1 + 1 + 3 * j := by omega
      have e3 : s.cIdx + (j + 1) = s.cIdx + 1 + j := by omega
      rw [e1, e2, e3]
    have hshift2 : ∀ j : Nat,
        pvProgSpec env Vmin step (i + (j + 1)) (s.qIdx + 3 * (j + 1)) =
          pvProgSpec env Vmin step (i + 1 + j) (s.qIdx + 1 + 1 + 1 + 3 * j) := by
      intro j
      have e1 : i + (j + 1) = i + 1 + j := by omega
      have e2 : s.qIdx + 3 * (j + 1) = s.qIdx + 1 + 1 + 1 + 3 * j := by omega
      rw [e1, e2]
    have hshift3 : ∀ j : Nat,
        pvIterTrace env Vmin step (i + (j + 1)) (s.qIdx + 3 * (j + 1)) =
          pvIterTrace env Vmin step (i + 1 + j) (s.qIdx + 1 + 1 + 1 + 3 * j) := by
      intro j
      have e1 : i + (j + 1) = i + 1 + j := by omega
      have e2 : s.qIdx + 3 * (j + 1) = s.qIdx + 1 + 1 + 1 + 3 * j := by omega
      rw [e1, e2]
    constructor
    · conv_rhs => rw [pvOutSpec]
      conv_rhs => rw [range_succ_map_shift _ _ rem hshift1, range_succ_flatMap_shift _ _ rem hshift2]
      simp [pvOutSpec, pvSampleSpec, pvProgSpec, hq1c, hq0v1, hq1c1]
    · conv_rhs => rw [pvStSpec]
      conv_rhs => rw [range_succ_flatMap_shift _ _ rem hshift3]
      rw [pvStSpec]
      simp only [St.mk.injEq]
      refine ⟨by omega, by omega, by omega, ?_⟩
      have e2 : s.qIdx + 3 * 0 = s.qIdx := by omega
      simp [pvIterTrace, hxs, hys, hzs, List.append_assoc, e2]

theorem pvLoop_err_of_bad (env : Env) (Vmin step start : ℚ) :
    ∀ rem i (s : St), ¬ pvGood env s rem →
      ∃ e, pvLoop env Vmin step start rem i s = .error e := by
  intro rem
  induction rem with
  | zero =>
    intro i s hbad
    exact absurd (fun j hj => absurd hj (by omega)) hbad
  | succ rem ih =>
    intro i s hbad
    by_cases hw0 : env.wok s.wIdx = true
    · by_cases hqa : (q1 env s.qIdx).isSome = true
      · obtain ⟨xs, hxs, c, hc⟩ : ∃ xs, env.qresp s.qIdx = some xs ∧ ∃ c, xs[1]? = some c := by
          rw [q1] at hqa
          cases hqq : env.qresp s.qIdx with
          | none => rw [hqq] at hqa; simp at hqa
          | some xs =>
            rw [hqq] at hqa
            simp only [Option.some_bind] at hqa
            cases hgg : xs[1]? with
            | none => rw [hgg] at hqa; simp at hqa
            | some c => exact ⟨xs, rfl, c, hgg⟩
        by_cases hqb : (q0 env (s.qIdx + 1)).isSome = true
        · obtain ⟨ys, hys, v1, hv1⟩ : ∃ ys, env.qresp (s.qIdx + 1) = some ys ∧
              ∃ v1, ys[0]? = some v1 := by
            rw [q0] at hqb
            cases hqq : env.qresp (s.qIdx + 1) with
            | none => rw [hqq] at hqb; simp at hqb
            | some ys =>
              rw [hqq] at hqb
              simp only [Option.some_bind] at hqb
              cases hgg : ys[0]? with
              | none => rw [hgg] at hqb; simp at hqb
              | some v1 => exact ⟨ys, rfl, v1, hgg⟩
          by_cases hqc : (q1 env (s.qIdx + 2)).isSome = true
          · obtain ⟨zs, hzs, c1, hc1⟩ : ∃ zs, env.qresp (s.qIdx + 1 + 1) = some zs ∧
                ∃ c1, zs[1]? = some c1 := by
              rw [q1] at hqc
              have e2 : s.qIdx + 2 = s.qIdx + 1 + 1 := by omega
              rw [e2] at hqc
              cases hqq : env.qresp (s.qIdx + 1 + 1) with
              | none => rw [hqq] at hqc; simp at hqc
              | some zs =>
                rw [hqq] at hqc
                simp only [Option.some_bind] at hqc
                cases hgg : zs[1]? with
                | none => rw [hgg] at hqc; simp at hqc
                | some c1 => exact ⟨zs, rfl, c1, hgg⟩
            have hbad' : ¬ pvGood env (⟨s.wIdx + 1, s.qIdx + 1 + 1 + 1, s.cIdx + 1,
                s.trace ++ [.write .primary (.sourVolt (Vmin + (i : ℚ) * step))] ++
                  [.query .primary xs] ++ [.query .secondary ys] ++
                  [.query .secondary zs]⟩ : St) rem := by
              intro hg'
              refine hbad (fun j hj => ?_)
              cases j with
              | zero =>
                refine ⟨by simpa using hw0, by simpa using hqa, by simpa using hqb,
                  by simpa using hqc⟩
              | succ j =>
                obtain ⟨h1, h2, h3, h4⟩ := hg' j (by omega)
                refine ⟨?_, ?_, ?_, ?_⟩
                · have e : s.wIdx + (j + 1) = s.wIdx + 1 + j := by omega
                  rw [e]; exact h1
                · have e : s.qIdx + 3 * (j + 1) = s.qIdx + 1 + 1 + 1 + 3 * j := by omega
                  rw [e]; exact h2
                · have e : s.qIdx + 3 * (j + 1) + 1 = s.qIdx + 1 + 1 + 1 + 3 * j + 1 := by
                    omega
                  rw [e]; exact h3
                · have e : s.qIdx + 3 * (j + 1) + 2 = s.qIdx + 1 + 1 + 1 + 3 * j + 2 := by
                    omega
                  rw [e]; exact h4
            obtain ⟨e, he⟩ := ih (i + 1) _ hbad'
            refine ⟨e, ?_⟩
            rw [pvLoop, doWrite, if_pos hw0]
            simp only [readTime, doQuery]
            simp only [hxs, hc, hys, hv1, hzs, hc1]
            rw [he]
          · rw [q1] at hqc
            have e2 : s.qIdx + 2 = s.qIdx + 1 + 1 := by omega
            rw [e2] at hqc
            cases hqq : env.qresp (s.qIdx + 1 + 1) with
            | none =>
              refine ⟨(.transport, ⟨s.wIdx + 1, s.qIdx + 1 + 1, s.cIdx + 1,
                s.trace ++ [.write .primary (.sourVolt (Vmin + (i : ℚ) * step))] ++
                  [.query .primary xs] ++ [.query .secondary ys]⟩), ?_⟩
              rw [pvLoop, doWrite, if_pos hw0]
              simp only [readTime, doQuery]
              simp only [hxs, hc, hys, hv1, hqq]
            | some zs =>
              rw [hqq] at hqc
              simp only [Option.some_bind] at hqc
              cases hgg : zs[1]? with
              | none =>
                refine ⟨(.indexErr, ⟨s.wIdx + 1, s.qIdx + 1 + 1 + 1, s.cIdx + 1,
                  s.trace ++ [.write .primary (.sourVolt (Vmin + (i : ℚ) * step))] ++
                    [.query .primary xs] ++ [.query .secondary ys] ++
                    [.query .secondary zs]⟩), ?_⟩
                rw [pvLoop, doWrite, if_pos hw0]
                simp only [readTime, doQuery]
                simp only [hxs, hc, hys, hv1, hqq, hgg]
              | some c1 => rw [hgg] at hqc; simp at hqc
        · rw [q0] at hqb
          cases hqq : env.qresp (s.qIdx + 1) with
          | none =>
            refine ⟨(.transport, ⟨s.wIdx + 1, s.qIdx + 1, s.cIdx + 1,
              s.trace ++ [.write .primary (.sourVolt (Vmin + (i : ℚ) * step))] ++
                [.query .primary xs]⟩), ?_⟩
            rw [pvLoop, doWrite, if_pos hw0]
            simp only [readTime, doQuery]
            simp only [hxs, hc, hqq]
          | some ys =>
            rw [hqq] at hqb
            simp only [Option.some_bind] at hqb
            cases hgg : ys[0]? with
            | none =>
              refine ⟨(.indexErr, ⟨s.wIdx + 1, s.qIdx + 1 + 1, s.cIdx + 1,
                s.trace ++ [.write .primary (.sourVolt (Vmin + (i : ℚ) * step))] ++
                  [.query .primary xs] ++ [.query .secondary ys]⟩), ?_⟩
              rw [pvLoop, doWrite, if_pos hw0]
              simp only [readTime, doQuery]
              simp only [hxs, hc, hqq, hgg]
            | some v1 => rw [hgg] at hqb; simp at hqb
      · rw [q1] at hqa
        cases hqq : env.qresp s.qIdx with
        | none =>
          refine ⟨(.transport, ⟨s.wIdx + 1, s.qIdx, s.cIdx + 1,
            s.trace ++ [.write .primary (.sourVolt (Vmin + (i : ℚ) * step))]⟩), ?_⟩
          rw [pvLoop, doWrite, if_pos hw0]
          simp only [readTime, doQuery]
          simp only [hqq]
        | some xs =>
          rw [hqq] at hqa
          simp only [Option.some_bind] at hqa
          cases hgg : xs[1]? with
          | none =>
            refine ⟨(.indexErr, ⟨s.wIdx + 1, s.qIdx + 1, s.cIdx + 1,
              s.trace ++ [.write .primary (.sourVolt (Vmin + (i : ℚ) * step))] ++
                [.query .primary xs]⟩), ?_⟩
            rw [pvLoop, doWrite, if_pos hw0]
            simp only [readTime, doQuery]
            simp only [hqq, hgg]
          | some c => rw [hgg] at hqa; simp at hqa
    · refine ⟨(.transport, s), ?_⟩
      rw [pvLoop, doWrite, if_neg hw0]

theorem pvLoop_err_trace (env : Env) (Vmin step start : ℚ) :
    ∀ rem i (s : St) e, pvLoop env Vmin step start rem i s = .error e →
      ∃ ext, e.2.trace = s.trace ++ ext ∧
        ∀ ev ∈ ext, (∃ v, ev = Event.write .primary (.sourVolt v)) ∨
          (∃ xs, ev = Event.query .primary xs) ∨ ∃ xs, ev = Event.query .secondary xs := by
  intro rem
  induction rem with
  | zero => intro i s e h; rw [pvLoop] at h; cases h
  | succ rem ih =>
    intro i s e h
    rw [pvLoop] at h
    by_cases hw0 : env.wok s.wIdx = true
    · rw [doWrite, if_pos hw0] at h
      simp only [readTime, doQuery] at h
      cases hqq : env.qresp s.qIdx with
      | none =>
        simp only [hqq] at h
        obtain rfl := Except.error.inj h
        refine ⟨[.write .primary (.sourVolt (Vmin + (i : ℚ) * step))], rfl, ?_⟩
        intro ev hev
        simp only [List.mem_singleton] at hev
        exact Or.inl ⟨_, hev⟩
      | some xs =>
        simp only [hqq] at h
        cases hgx : xs[1]? with
        | none =>
          simp only [hgx] at h
          obtain rfl := Except.error.inj h
          refine ⟨[.write .primary (.sourVolt (Vmin + (i : ℚ) * step)),
            .query .primary xs], by simp, ?_⟩
          intro ev hev
          simp only [List.mem_cons, List.mem_singleton] at hev
          rcases hev with h1 | h1 | h1
          · exact Or.inl ⟨_, h1⟩
          · exact Or.inr (Or.inl ⟨_, h1⟩)
          · cases h1
        | some c =>
          simp only [hgx] at h
          cases hqq2 : env.qresp (s.qIdx + 1) with
          | none =>
            simp only [hqq2] at h
            obtain rfl := Except.error.inj h
            refine ⟨[.write .primary (.sourVolt (Vmin + (i : ℚ) * step)),
              .query .primary xs], by simp, ?_⟩
            intro ev hev
            simp only [List.mem_cons, List.mem_singleton] at hev
            rcases hev with h1 | h1 | h1
            · exact Or.inl ⟨_, h1⟩
            · exact Or.inr (Or.inl ⟨_, h1⟩)
            · cases h1
          | some ys =>
            simp only [hqq2] at h
            cases hgy : ys[0]? with
            | none =>
              simp only [hgy] at h
              obtain rfl := Except.error.inj h
              refine ⟨[.write .primary (.sourVolt (Vmin + (i : ℚ) * step)),
                .query .primary xs, .query .secondary ys], by simp, ?_⟩
              intro ev hev
              simp only [List.mem_cons, List.mem_singleton] at hev
              rcases hev with h1 | h1 | h1 | h1
              · exact Or.inl ⟨_, h1⟩
              · exact Or.inr (Or.inl ⟨_, h1⟩)
              · exact Or.inr (Or.inr ⟨_, h1⟩)
              · cases h1
            | some v1 =>
              simp only [hgy] at h
              cases hqq3 : env.qresp (s.qIdx + 1 + 1) with
              | none =>
                simp only [hqq3] at h
                obtain rfl := Except.error.inj h
                refine ⟨[.write .primary (.sourVolt (Vmin + (i : ℚ) * step)),
                  .query .primary xs, .query .secondary ys], by simp, ?_⟩
                intro ev hev
                simp only [List.mem_cons, List.mem_singleton] at hev
                rcases hev with h1 | h1 | h1 | h1
                · exact Or.inl ⟨_, h1⟩
                · exact Or.inr (Or.inl ⟨_, h1⟩)
                · exact Or.inr (Or.inr ⟨_, h1⟩)
                · cases h1
              | some zs =>
                simp only [hqq3] at h
                cases hgz : zs[1]? with
                | none =>
                  simp only [hgz] at h
                  obtain rfl := Except.error.inj h
                  refine ⟨[.write .primary (.sourVolt (Vmin + (i : ℚ) * step)),
                    .query .primary xs, .query .secondary ys, .query .secondary zs],
                    by simp, ?_⟩
                  intro ev hev
                  simp only [List.mem_cons, List.mem_singleton] at hev
                  rcases hev with h1 | h1 | h1 | h1 | h1
                  · exact Or.inl ⟨_, h1⟩
                  · exact Or.inr (Or.inl ⟨_, h1⟩)
                  · exact Or.inr (Or.inr ⟨_, h1⟩)
                  · exact Or.inr (Or.inr ⟨_, h1⟩)
                  · cases h1
                | some c1 =>
                  simp only [hgz] at h
                  cases hrec : pvLoop env Vmin step start rem (i + 1)
                      (⟨s.wIdx + 1, s.qIdx + 1 + 1 + 1, s.cIdx + 1,
                        s.trace ++ [.write .primary (.sourVolt (Vmin + (i : ℚ) * step))] ++
                          [.query .primary xs] ++ [.query .secondary ys] ++
                          [.query .secondary zs]⟩ : St) with
                  | error e' =>
                    rw [hrec] at h
                    obtain rfl := Except.error.inj h
                    obtain ⟨ext, hext, hev⟩ := ih (i + 1) _ e' hrec
                    refine ⟨[Event.write .primary (.sourVolt (Vmin + (i : ℚ) * step)),
                      Event.query .primary xs, Event.query .secondary ys,
                      Event.query .secondary zs] ++ ext, ?_, ?_⟩
                    · rw [hext]
                      simp
                    · intro ev hv
                      rcases List.mem_append.mp hv with h1 | h1
                      · simp only [List.mem_cons, List.mem_singleton] at h1
                        rcases h1 with h2 | h2 | h2 | h2 | h2
                        · exact Or.inl ⟨_, h2⟩
                        · exact Or.inr (Or.inl ⟨_, h2⟩)
                        · exact Or.inr (Or.inr ⟨_, h2⟩)
                        · exact Or.inr (Or.inr ⟨_, h2⟩)
                        · cases h2
                      · exact hev ev h1
                  | ok os =>
                    obtain ⟨out, s5⟩ := os
                    rw [hrec] at h
                    simp at h
    · rw [doWrite, if_neg hw0] at h
      obtain rfl := Except.error.inj h
      exact ⟨[], by simp, by simp⟩

theorem pvLoop_ok_inv (env : Env) (Vmin step start : ℚ) {rem i : Nat} {s : St}
    {out : PVOut} {s' : St}
    (h : pvLoop env Vmin step start rem i s = .ok (out, s')) :
    pvGood env s rem ∧
      out = pvOutSpec env Vmin step start i s.qIdx s.cIdx rem ∧
      s' = pvStSpec env Vmin step i rem s := by
  by_cases hg : pvGood env s rem
  · rw [pvLoop_eq_ok env Vmin step start rem i s hg] at h
    obtain ⟨h1, h2⟩ := Prod.mk.inj (Except.ok.inj h)
    exact ⟨hg, h1.symm, h2.symm⟩
  · obtain ⟨e, he⟩ := pvLoop_err_of_bad env Vmin step start rem i s hg
    rw [he] at h
    cases h

theorem writeSeq_eq_ok (env : Env) :
    ∀ ws (s : St), (∀ j, j < ws.length → env.wok (s.wIdx + j) = true) →
      writeSeq env ws s = .ok ⟨s.wIdx + ws.length, s.qIdx, s.cIdx,
        s.trace ++ ws.map (fun dc => Event.write dc.1 dc.2)⟩ := by
  intro ws
  induction ws with
  | nil =>
    intro s hg
    rw [writeSeq]
    simp
  | cons dc rest ih =>
    intro s hg
    rw [writeSeq, doWrite, if_pos (by simpa using hg 0 (by simp))]
    show writeSeq env rest
        (⟨s.wIdx + 1, s.qIdx, s.cIdx, s.trace ++ [Event.write dc.1 dc.2]⟩ : St) =
      Except.ok ⟨s.wIdx + (dc :: rest).length, s.qIdx, s.cIdx,
        s.trace ++ List.map (fun dc => Event.write dc.1 dc.2) (dc :: rest)⟩
    rw [ih _ (fun j hj => by
      show env.wok (s.wIdx + 1 + j) = true
      have e : s.wIdx + 1 + j = s.wIdx + (j + 1) := by omega
      rw [e]
      exact hg (j + 1) (by simp only [List.length_cons]; omega))]
    simp only [Except.ok.injEq, St.mk.injEq, List.length_cons, List.map_cons, and_true,
      true_and, List.append_assoc, List.singleton_append]
    omega

theorem ivRun_err_prop (env : Env) (p : IVParams) (hw0 : env.wok 0 = true) {e : Err × St}
    (h : ivLoop env p.Vmin p.step_size (env.clock 0) (ivN p) 0 ivS2 = .error e) :
    Keithley_VOLTAGE_SWEEP_IV env p = .error e := by
  rw [Keithley_VOLTAGE_SWEEP_IV, doWrite]
  simp only [St.init, hw0, if_true, Nat.zero_add, List.nil_append, readTime]
  rw [ivN, ivS2] at h
  rw [h]

theorem pvRun_err_prop (env : Env) (p : PVParams)
    (hw : ∀ j, j < 4 → env.wok j = true) {e : Err × St}
    (h : pvLoop env p.Vmin p.step_size (env.clock 0) (pvN p) 0 (pvS2 p) = .error e) :
    Keithley_VOLTAGE_SWEEP_PV env p = .error e := by
  rw [Keithley_VOLTAGE_SWEEP_PV]
  rw [writeSeq_eq_ok env _ St.init (fun j hj => by
    simpa [St.init] using hw j (by simpa using hj))]
  show (match pvLoop env p.Vmin p.step_size (env.clock 0)
      (pointsInt p.Vmin p.Vmax p.step_size).toNat 0
      (⟨4, 0, 1, [.write .primary (.outp true), .write .secondary (.outp true),
        .write .secondary (.sourVolt p.read_bias),
        .write .secondary (.sensCurrProt p.compliance_read)]⟩ : St) with
    | Except.error e => Except.error e
    | Except.ok (out1, s2) =>
      match writeSeq env [(DevId.primary, Cmd.sourVolt 0), (DevId.secondary, Cmd.sourVolt 0),
          (DevId.primary, Cmd.outp false), (DevId.secondary, Cmd.outp false)] s2 with
      | Except.error e => Except.error e
      | Except.ok s3 => Except.ok (out1, s3)) = Except.error e
  rw [pvN, pvS2, pvPre] at h
  rw [h]

theorem pvRun_ok_inv (env : Env) (p : PVParams) {out : PVOut} {s' : St}
    (h : Keithley_VOLTAGE_SWEEP_PV env p = .ok (out, s')) :
    pvGood env (pvS2 p) (pvN p) ∧
      out = pvOutSpec env p.Vmin p.step_size (env.clock 0) 0 0 1 (pvN p) ∧
      s'.trace = (pvPre p ++
        (List.range (pvN p)).flatMap
          (fun j => pvIterTrace env p.Vmin p.step_size (0 + j) (0 + 3 * j))) ++ pvShut := by
  rw [Keithley_VOLTAGE_SWEEP_PV] at h
  cases hpre : writeSeq env
      [(.primary, .outp true), (.secondary, .outp true),
       (.secondary, .sourVolt p.read_bias), (.secondary, .sensCurrProt p.compliance_read)]
      St.init with
  | error e =>
    rw [hpre] at h
    replace h : (Except.error e : Except (Err × St) (PVOut × St)) = Except.ok (out, s') := h
    cases h
  | ok s1 =>
    rw [hpre] at h
    have hs1 := writeSeq_ok_char env _ _ _ hpre
    subst hs1
    replace h :
        (match pvLoop env p.Vmin p.step_size (env.clock 0)
            (pointsInt p.Vmin p.Vmax p.step_size).toNat 0
            (⟨4, 0, 1, [.write .primary (.outp true), .write .secondary (.outp true),
              .write .secondary (.sourVolt p.read_bias),
              .write .secondary (.sensCurrProt p.compliance_read)]⟩ : St) with
          | Except.error e => Except.error e
          | Except.ok (out1, s2) =>
            match writeSeq env [(DevId.primary, Cmd.sourVolt 0),
                (DevId.secondary, Cmd.sourVolt 0), (DevId.primary, Cmd.outp false),
                (DevId.secondary, Cmd.outp false)] s2 with
            | Except.error e => Except.error e
            | Except.ok s3 => Except.ok (out1, s3)) = Except.ok (out, s') := h
    cases hloop : pvLoop env p.Vmin p.step_size (env.clock 0)
        (pointsInt p.Vmin p.Vmax p.step_size).toNat 0
        (⟨4, 0, 1, [.write .primary (.outp true), .write .secondary (.outp true),
          .write .secondary (.sourVolt p.read_bias),
          .write .secondary (.sensCurrProt p.compliance_read)]⟩ : St) with
    | error e =>
      rw [hloop] at h
      replace h : (Except.error e : Except (Err × St) (PVOut × St)) = Except.ok (out, s') := h
      cases h
    | ok os =>
      obtain ⟨out0, s2⟩ := os
      rw [hloop] at h
      obtain ⟨hgood, hout0, hs2⟩ := pvLoop_ok_inv env p.Vmin p.step_size (env.clock 0) hloop
      replace h :
          (match writeSeq env [(DevId.primary, Cmd.sourVolt 0),
              (DevId.secondary, Cmd.sourVolt 0), (DevId.primary, Cmd.outp false),
              (DevId.secondary, Cmd.outp false)] s2 with
            | Except.error e => Except.error e
            | Except.ok s3 => Except.ok (out0, s3)) = Except.ok (out, s') := h
      cases hws : writeSeq env [(.primary, .sourVolt 0), (.secondary, .sourVolt 0),
          (.primary, .outp false), (.secondary, .outp false)] s2 with
      | error e =>
        rw [hws] at h
        cases h
      | ok s3 =>
        rw [hws] at h
        obtain ⟨h1, h2⟩ := Prod.mk.inj (Except.ok.inj h)
        subst h1
        subst h2
        have hs3 := writeSeq_ok_char env _ _ _ hws
        refine ⟨by rw [pvS2, pvPre]; exact hgood, by rw [pvN]; exact hout0, ?_⟩
        rw [hs3, hs2]
        rw [pvStSpec]
        simp [pvN, pvPre, pvShut]


theorem ivLoop_err_kind (env : Env) (Vmin step start : ℚ) :
    ∀ rem i (s : St) e, ivLoop env Vmin step start rem i s = .error e →
      e.1 = .indexErr → ∃ n xs, env.qresp n = some xs ∧ xs.length < 2 := by
  intro rem
  induction rem with
  | zero => intro i s e h; rw [ivLoop] at h; cases h
  | succ rem ih =>
    intro i s e h hk
    rw [ivLoop] at h
    by_cases hw0 : env.wok s.wIdx = true
    · rw [doWrite, if_pos hw0] at h
      simp only [readTime, doQuery] at h
      cases hqq : env.qresp s.qIdx with
      | none =>
        simp only [hqq] at h
        obtain rfl := Except.error.inj h
        cases hk
      | some xs =>
        simp only [hqq] at h
        cases hgg : xs[1]? with
        | none =>
          refine ⟨s.qIdx, xs, hqq, ?_⟩
          rw [List.getElem?_eq_none_iff] at hgg
          omega
        | some c =>
          simp only [hgg] at h
          cases hrec : ivLoop env Vmin step start rem (i + 1)
              (⟨s.wIdx + 1, s.qIdx + 1, s.cIdx + 1,
                s.trace ++ [.write .primary (.sourVolt (Vmin + (i : ℚ) * step))] ++
                  [.query .primary xs]⟩ : St) with
          | error e' =>
            rw [hrec] at h
            obtain rfl := Except.error.inj h
            exact ih (i + 1) _ e' hrec hk
          | ok os =>
            obtain ⟨out, s3⟩ := os
            rw [hrec] at h
            simp at h
    · rw [doWrite, if_neg hw0] at h
      obtain rfl := Except.error.inj h
      cases hk

theorem pvLoop_err_kind (env : Env) (Vmin step start : ℚ) :
    ∀ rem i (s : St) e, pvLoop env Vmin step start rem i s = .error e →
      e.1 = .indexErr → ∃ n xs, env.qresp n = some xs ∧ xs.length < 2 := by
  intro rem
  induction rem with
  | zero => intro i s e h; rw [pvLoop] at h; cases h
  | succ rem ih =>
    intro i s e h hk
    rw [pvLoop] at h
    by_cases hw0 : env.wok s.wIdx = true
    · rw [doWrite, if_pos hw0] at h
      simp only [readTime, doQuery] at h
      cases hqq : env.qresp s.qIdx with
      | none =>
        simp only [hqq] at h
        obtain rfl := Except.error.inj h
        cases hk
      | some xs =>
        simp only [hqq] at h
        cases hgx : xs[1]? with
        | none =>
          refine ⟨s.qIdx, xs, hqq, ?_⟩
          rw [List.getElem?_eq_none_iff] at hgx
          omega
        | some c =>
          simp only [hgx] at h
          cases hqq2 : env.qresp (s.qIdx + 1) with
          | none =>
            simp only [hqq2] at h
            obtain rfl := Except.error.inj h
            cases hk
          | some ys =>
            simp only [hqq2] at h
            cases hgy : ys[0]? with
            | none =>
              refine ⟨s.qIdx + 1, ys, hqq2, ?_⟩
              rw [List.getElem?_eq_none_iff] at hgy
              omega
            | some v1 =>
              simp only [hgy] at h
              cases hqq3 : env.qresp (s.qIdx + 1 + 1) with
              | none =>
                simp only [hqq3] at h
                obtain rfl := Except.error.inj h
                cases hk
              | some zs =>
                simp only [hqq3] at h
                cases hgz : zs[1]? with
                | none =>
                  refine ⟨s.qIdx + 1 + 1, zs, hqq3, ?_⟩
                  rw [List.getElem?_eq_none_iff] at hgz
                  omega
                | some c1 =>
                  simp only [hgz] at h
                  cases hrec : pvLoop env Vmin step start rem (i + 1)
                      (⟨s.wIdx + 1, s.qIdx + 1 + 1 + 1, s.cIdx + 1,
                        s.trace ++ [.write .primary (.sourVolt (Vmin + (i : ℚ) * step))] ++
                          [.query .primary xs] ++ [.query .secondary ys] ++
                          [.query .secondary zs]⟩ : St) with
                  | error e' =>
                    rw [hrec] at h
                    obtain rfl := Except.error.inj h
                    exact ih (i + 1) _ e' hrec hk
                  | ok os =>
                    obtain ⟨out, s5⟩ := os
                    rw [hrec] at h
                    simp at h
    · rw [doWrite, if_neg hw0] at h
      obtain rfl := Except.error.inj h
      cases hk

theorem ivRun_err_kind (env : Env) (p : IVParams) {e : Err × St}
    (h : Keithley_VOLTAGE_SWEEP_IV env p = .error e) :
    e.1 = .indexErr → ∃ n xs, env.qresp n = some xs ∧ xs.length < 2 := by
  intro hk
  rw [Keithley_VOLTAGE_SWEEP_IV] at h
  by_cases hw0 : env.wok 0 = true
  · rw [doWrite] at h
    simp only [St.init, hw0, if_true, Nat.zero_add, List.nil_append, readTime] at h
    cases hloop : ivLoop env p.Vmin p.step_size (env.clock 0)
        (pointsInt p.Vmin p.Vmax p.step_size).toNat 0
        (⟨1, 0, 1, [.write .primary (.outp true)]⟩ : St) with
    | error e' =>
      rw [hloop] at h
      replace h : (Except.error e' : Except (Err × St) (IVOut × St)) = Except.error e := h
      obtain rfl := Except.error.inj h
      exact ivLoop_err_kind env p.Vmin p.step_size (env.clock 0) _ _ _ e' hloop hk
    | ok os =>
      obtain ⟨out0, s2⟩ := os
      rw [hloop] at h
      replace h :
          (match writeSeq env [(DevId.primary, Cmd.sourVolt 0), (DevId.primary, Cmd.outp false)]
              s2 with
            | Except.error e => Except.error e
            | Except.ok s3 => Except.ok (out0, s3)) = Except.error e := h
      cases hws : writeSeq env [(.primary, .sourVolt 0), (.primary, .outp false)] s2 with
      | ok s3 => rw [hws] at h; cases h
      | error e2 =>
        rw [hws] at h
        obtain rfl := Except.error.inj h
        obtain ⟨hkind, -⟩ := writeSeq_err_char env _ _ _ hws
        rw [hkind] at hk
        cases hk
  · rw [doWrite] at h
    simp only [St.init, hw0] at h
    replace h : (Except.error ((Err.transport, (⟨0, 0, 0, []⟩ : St)) : Err × St) :
        Except (Err × St) (IVOut × St)) = Except.error e := h
    obtain rfl := Except.error.inj h
    cases hk

theorem pvRun_err_kind (env : Env) (p : PVParams) {e : Err × St}
    (h : Keithley_VOLTAGE_SWEEP_PV env p = .error e) :
    e.1 = .indexErr → ∃ n xs, env.qresp n = some xs ∧ xs.length < 2 := by
  intro hk
  rw [Keithley_VOLTAGE_SWEEP_PV] at h
  cases hpre : writeSeq env
      [(.primary, .outp true), (.secondary, .outp true),
       (.secondary, .sourVolt p.read_bias), (.secondary, .sensCurrProt p.compliance_read)]
      St.init with
  | error e' =>
    rw [hpre] at h
    replace h : (Except.error e' : Except (Err × St) (PVOut × St)) = Except.error e := h
    obtain rfl := Except.error.inj h
    obtain ⟨hkind, -⟩ := writeSeq_err_char env _ _ _ hpre
    rw [hkind] at hk
    cases hk
  | ok s1 =>
    rw [hpre] at h
    have hs1 := writeSeq_ok_char env _ _ _ hpre
    subst hs1
    replace h :
        (match pvLoop env p.Vmin p.step_size (env.clock 0)
            (pointsInt p.Vmin p.Vmax p.step_size).toNat 0
            (⟨4, 0, 1, [.write .primary (.outp true), .write .secondary (.outp true),
              .write .secondary (.sourVolt p.read_bias),
              .write .secondary (.sensCurrProt p.compliance_read)]⟩ : St) with
          | Except.error e => Except.error e
          | Except.ok (out1, s2) =>
            match writeSeq env [(DevId.primary, Cmd.sourVolt 0),
                (DevId.secondary, Cmd.sourVolt 0), (DevId.primary, Cmd.outp false),
                (DevId.secondary, Cmd.outp false)] s2 with
            | Except.error e => Except.error e
            | Except.ok s3 => Except.ok (out1, s3)) = Except.error e := h
    cases hloop : pvLoop env p.Vmin p.step_size (env.clock 0)
        (pointsInt p.Vmin p.Vmax p.step_size).toNat 0
        (⟨4, 0, 1, [.write .primary (.outp true), .write .secondary (.outp true),
          .write .secondary (.sourVolt p.read_bias),
          .write .secondary (.sensCurrProt p.compliance_read)]⟩ : St) with
    | error e' =>
      rw [hloop] at h
      obtain rfl := Except.error.inj h
      exact pvLoop_err_kind env p.Vmin p.step_size (env.clock 0) _ _ _ e' hloop hk
    | ok os =>
      obtain ⟨out0, s2⟩ := os
      rw [hloop] at h
      replace h :
          (match writeSeq env [(DevId.primary, Cmd.sourVolt 0),
              (DevId.secondary, Cmd.sourVolt 0), (DevId.primary, Cmd.outp false),
              (DevId.secondary, Cmd.outp false)] s2 with
            | Except.error e => Except.error e
            | Except.ok s3 => Except.ok (out0, s3)) = Except.error e := h
      cases hws : writeSeq env [(.primary, .sourVolt 0), (.secondary, .sourVolt 0),
          (.primary, .outp false), (.secondary, .outp false)] s2 with
      | ok s3 => rw [hws] at h; cases h
      | error e2 =>
        rw [hws] at h
        obtain rfl := Except.error.inj h
        obtain ⟨hkind, -⟩ := writeSeq_err_char env _ _ _ hws
        rw [hkind] at hk
        cases hk




/-- C1: for every sweep of either engine whose stepping loop completes
normally, the last two interactions with each driven instrument are the
set-voltage-to-zero command followed by the disable-output command, with no
instrument command after them. -/
theorem claim1_shutdown_tail :
    (∀ (env : Env) (p : IVParams), runOk (Keithley_VOLTAGE_SWEEP_IV env p) = true →
      ∃ pre, evTo .primary (stOf (Keithley_VOLTAGE_SWEEP_IV env p)).trace =
        pre ++ [Event.write .primary (.sourVolt 0), Event.write .primary (.outp false)]) ∧
    (∀ (env : Env) (p : PVParams), runOk (Keithley_VOLTAGE_SWEEP_PV env p) = true →
      (∃ pre, evTo .primary (stOf (Keithley_VOLTAGE_SWEEP_PV env p)).trace =
        pre ++ [Event.write .primary (.sourVolt 0), Event.write .primary (.outp false)]) ∧
      (∃ pre, evTo .secondary (stOf (Keithley_VOLTAGE_SWEEP_PV env p)).trace =
        pre ++ [Event.write .secondary (.sourVolt 0), Event.write .secondary (.outp false)])) := by
  constructor
  · intro env p hok
    cases hr : Keithley_VOLTAGE_SWEEP_IV env p with
    | error e => rw [hr] at hok; simp [runOk] at hok
    | ok os =>
      obtain ⟨out, s'⟩ := os
      obtain ⟨-, -, -, htr⟩ := ivRun_ok_inv env p hr
      simp only [stOf]
      rw [htr, evTo, List.filter_append]
      exact ⟨_, rfl⟩
  · intro env p hok
    cases hr : Keithley_VOLTAGE_SWEEP_PV env p with
    | error e => rw [hr] at hok; simp [runOk] at hok
    | ok os =>
      obtain ⟨out, s'⟩ := os
      obtain ⟨-, -, htr⟩ := pvRun_ok_inv env p hr
      simp only [stOf]
      rw [htr]
      constructor
      · rw [evTo, List.filter_append]
        exact ⟨_, rfl⟩
      · rw [evTo, List.filter_append]
        exact ⟨_, rfl⟩

theorem claim1_shutdown_tail_witness :
    (∃ pre, evTo .primary (stOf (Keithley_VOLTAGE_SWEEP_IV envW cfgIVW)).trace =
      pre ++ [Event.write .primary (.sourVolt 0), Event.write .primary (.outp false)]) ∧
    (∃ pre, evTo .primary (stOf (Keithley_VOLTAGE_SWEEP_PV envW cfgPVW)).trace =
      pre ++ [Event.write .primary (.sourVolt 0), Event.write .primary (.outp false)]) ∧
    (∃ pre, evTo .secondary (stOf (Keithley_VOLTAGE_SWEEP_PV envW cfgPVW)).trace =
      pre ++ [Event.write .secondary (.sourVolt 0), Event.write .secondary (.outp false)]) :=
  ⟨claim1_shutdown_tail.1 envW cfgIVW (by with_unfolding_all rfl),
   (claim1_shutdown_tail.2 envW cfgPVW (by with_unfolding_all rfl)).1,
   (claim1_shutdown_tail.2 envW cfgPVW (by with_unfolding_all rfl)).2⟩



theorem sourVoltsOf_append (a b : List Event) :
    sourVoltsOf (a ++ b) = sourVoltsOf a ++ sourVoltsOf b :=
  List.filterMap_append ..

theorem sourVoltsOf_flatMap {α : Type} (f : α → List Event) (l : List α) :
    sourVoltsOf (l.flatMap f) = l.flatMap (fun a => sourVoltsOf (f a)) := by
  induction l with
  | nil => rfl
  | cons a l ih => simp [List.flatMap_cons, sourVoltsOf_append, ih]

theorem sourVoltsOf_ivIter (env : Env) (Vmin step : ℚ) (i qi : Nat) :
    sourVoltsOf (ivIterTrace env Vmin step i qi) = [Vmin + (i : ℚ) * step] := rfl

theorem flatMap_singleton_map {α β : Type} (g : α → β) (l : List α) :
    l.flatMap (fun a => [g a]) = l.map g := by
  induction l with
  | nil => rfl
  | cons a l ih => simp [List.flatMap_cons, ih]

theorem filter_flatMap {α β : Type} (f : α → List β) (q : β → Bool) (l : List α) :
    (l.flatMap f).filter q = l.flatMap (fun a => (f a).filter q) := by
  induction l with
  | nil => rfl
  | cons a l ih => simp [List.flatMap_cons, List.filter_append, ih]

/-- C3: for a configuration with `Vmin < Vmax` and a positive step dividing
the range, a successfully completing sweep of either engine records
`floor((Vmax-Vmin)/step) + 1` voltage points with the `i`-th commanded
voltage `Vmin + i*step`; the first is `Vmin`, the last `Vmin + floor*step`,
and the setpoint command sequence issued to the swept instrument is that
grid followed by the shutdown zero. -/
theorem claim3_voltage_grid :
    (∀ (env : Env) (p : IVParams), p.Vmin < p.Vmax → 0 < p.step_size →
      (∃ k : ℕ, p.Vmax - p.Vmin = (k : ℚ) * p.step_size) →
      runOk (Keithley_VOLTAGE_SWEEP_IV env p) = true →
      pointsInt p.Vmin p.Vmax p.step_size = ⌊(p.Vmax - p.Vmin) / p.step_size⌋ + 1 ∧
      (ivOutOf (Keithley_VOLTAGE_SWEEP_IV env p)).samples.map SampleIV.v =
        (List.range ((⌊(p.Vmax - p.Vmin) / p.step_size⌋ + 1).toNat)).map
          (fun i : ℕ => p.Vmin + (i : ℚ) * p.step_size) ∧
      ((ivOutOf (Keithley_VOLTAGE_SWEEP_IV env p)).samples.map SampleIV.v).head? =
        some p.Vmin ∧
      ((ivOutOf (Keithley_VOLTAGE_SWEEP_IV env p)).samples.map SampleIV.v).getLast? =
        some (p.Vmin + ((⌊(p.Vmax - p.Vmin) / p.step_size⌋ : ℤ) : ℚ) * p.step_size) ∧
      sourVoltsOf (stOf (Keithley_VOLTAGE_SWEEP_IV env p)).trace =
        (List.range ((⌊(p.Vmax - p.Vmin) / p.step_size⌋ + 1).toNat)).map
          (fun i : ℕ => p.Vmin + (i : ℚ) * p.step_size) ++ [0]) ∧
    (∀ (env : Env) (p : PVParams), p.Vmin < p.Vmax → 0 < p.step_size →
      (∃ k : ℕ, p.Vmax - p.Vmin = (k : ℚ) * p.step_size) →
      runOk (Keithley_VOLTAGE_SWEEP_PV env p) = true →
      pointsInt p.Vmin p.Vmax p.step_size = ⌊(p.Vmax - p.Vmin) / p.step_size⌋ + 1 ∧
      (pvOutOf (Keithley_VOLTAGE_SWEEP_PV env p)).samples.map SamplePV.v =
        (List.range ((⌊(p.Vmax - p.Vmin) / p.step_size⌋ + 1).toNat)).map
          (fun i : ℕ => p.Vmin + (i : ℚ) * p.step_size) ∧
      ((pvOutOf (Keithley_VOLTAGE_SWEEP_PV env p)).samples.map SamplePV.v).head? =
        some p.Vmin ∧
      ((pvOutOf (Keithley_VOLTAGE_SWEEP_PV env p)).samples.map SamplePV.v).getLast? =
        some (p.Vmin + ((⌊(p.Vmax - p.Vmin) / p.step_size⌋ : ℤ) : ℚ) * p.step_size) ∧
      sourVoltsOf (evTo .primary (stOf (Keithley_VOLTAGE_SWEEP_PV env p)).trace) =
        (List.range ((⌊(p.Vmax - p.Vmin) / p.step_size⌋ + 1).toNat)).map
          (fun i : ℕ => p.Vmin + (i : ℚ) * p.step_size) ++ [0]) := by
  constructor
  · intro env p hlt hstep hex hok
    obtain ⟨k, hk⟩ := hex
    have hs0 : p.step_size ≠ 0 := ne_of_gt hstep
    have hdiv : (p.Vmax - p.Vmin) / p.step_size = (k : ℚ) := by
      rw [hk, mul_div_assoc, div_self hs0, mul_one]
    have hfl : ⌊(p.Vmax - p.Vmin) / p.step_size⌋ = (k : ℤ) := by
      rw [hdiv]
      exact_mod_cast Int.floor_natCast k
    have hpts : pointsInt p.Vmin p.Vmax p.step_size = (k : ℤ) + 1 := by
      rw [pointsInt, pyInt, if_neg (by rw [hdiv]; exact not_lt.mpr (by positivity)), hfl]
    have hN : (⌊(p.Vmax - p.Vmin) / p.step_size⌋ + 1).toNat = k + 1 := by
      rw [hfl]
      omega
    have hivN : ivN p = k + 1 := by
      rw [ivN, hpts]
      omega
    cases hr : Keithley_VOLTAGE_SWEEP_IV env p with
    | error e => rw [hr] at hok; simp [runOk] at hok
    | ok os =>
      obtain ⟨out, s'⟩ := os
      obtain ⟨-, -, hout, htr⟩ := ivRun_ok_inv env p hr
      have hsv : out.samples.map SampleIV.v =
          (List.range (k + 1)).map (fun j : ℕ => p.Vmin + (j : ℚ) * p.step_size) := by
        rw [hout, ivOutSpec]
        simp only [List.map_map]
        rw [hivN]
        refine List.map_congr_left (fun j _ => ?_)
        simp [ivSampleSpec, Function.comp]
      refine ⟨by rw [hpts, hfl], ?_, ?_, ?_, ?_⟩
      · simp only [ivOutOf]
        rw [hsv, hN]
      · simp only [ivOutOf]
        rw [hsv, List.range_succ_eq_map, List.map_cons]
        simp
      · simp only [ivOutOf]
        rw [hsv, List.getLast?_map, List.range_succ, List.getLast?_concat, hfl]
        simp
      · simp only [stOf]
        rw [htr, sourVoltsOf_append, sourVoltsOf_append, sourVoltsOf_flatMap]
        have h1 : sourVoltsOf [Event.write .primary (.outp true)] = [] := rfl
        have h2 : sourVoltsOf [Event.write .primary (.sourVolt 0),
            Event.write .primary (.outp false)] = [0] := rfl
        rw [h1, h2, hN, hivN]
        simp only [sourVoltsOf_ivIter]
        rw [flatMap_singleton_map]
        rw [List.nil_append]
        congr 1
        refine List.map_congr_left (fun j _ => ?_)
        simp
  · intro env p hlt hstep hex hok
    obtain ⟨k, hk⟩ := hex
    have hs0 : p.step_size ≠ 0 := ne_of_gt hstep
    have hdiv : (p.Vmax - p.Vmin) / p.step_size = (k : ℚ) := by
      rw [hk, mul_div_assoc, div_self hs0, mul_one]
    have hfl : ⌊(p.Vmax - p.Vmin) / p.step_size⌋ = (k : ℤ) := by
      rw [hdiv]
      exact_mod_cast Int.floor_natCast k
    have hpts : pointsInt p.Vmin p.Vmax p.step_size = (k : ℤ) + 1 := by
      rw [pointsInt, pyInt, if_neg (by rw [hdiv]; exact not_lt.mpr (by positivity)), hfl]
    have hN : (⌊(p.Vmax - p.Vmin) / p.step_size⌋ + 1).toNat = k + 1 := by
      rw [hfl]
      omega
    have hpvN : pvN p = k + 1 := by
      rw [pvN, hpts]
      omega
    cases hr : Keithley_VOLTAGE_SWEEP_PV env p with
    | error e => rw [hr] at hok; simp [runOk] at hok
    | ok os =>
      obtain ⟨out, s'⟩ := os
      obtain ⟨-, hout, htr⟩ := pvRun_ok_inv env p hr
      have hsv : out.samples.map SamplePV.v =
          (List.range (k + 1)).map (fun j : ℕ => p.Vmin + (j : ℚ) * p.step_size) := by
        rw [hout, pvOutSpec]
        simp only [List.map_map]
        rw [hpvN]
        refine List.map_congr_left (fun j _ => ?_)
        simp [pvSampleSpec, Function.comp]
      refine ⟨by rw [hpts, hfl], ?_, ?_, ?_, ?_⟩
      · simp only [pvOutOf]
        rw [hsv, hN]
      · simp only [pvOutOf]
        rw [hsv, List.range_succ_eq_map, List.map_cons]
        simp
      · simp only [pvOutOf]
        rw [hsv, List.getLast?_map, List.range_succ, List.getLast?_concat, hfl]
        simp
      · simp only [stOf]
        rw [htr, evTo, List.filter_append, List.filter_append, filter_flatMap]
        rw [sourVoltsOf_append, sourVoltsOf_append, sourVoltsOf_flatMap]
        have h1 : sourVoltsOf (List.filter (fun e => devOf e == DevId.primary) (pvPre p)) =
            [] := by
          rw [pvPre]
          rfl
        have h2 : sourVoltsOf (List.filter (fun e => devOf e == DevId.primary) pvShut) =
            [0] := by
          rw [pvShut]
          rfl
        have h3 : (fun j : ℕ => sourVoltsOf (List.filter
              (fun e => devOf e == DevId.primary)
              (pvIterTrace env p.Vmin p.step_size (0 + j) (0 + 3 * j)))) =
            fun j : ℕ => [p.Vmin + ((0 + j : ℕ) : ℚ) * p.step_size] := funext fun j => rfl
        rw [h1, h2, h3, hN, hpvN, flatMap_singleton_map, List.nil_append]
        congr 1
        refine List.map_congr_left (fun j _ => ?_)
        simp

theorem claim3_voltage_grid_witness :
    (pointsInt cfgIVW.Vmin cfgIVW.Vmax cfgIVW.step_size =
      ⌊(cfgIVW.Vmax - cfgIVW.Vmin) / cfgIVW.step_size⌋ + 1 ∧
    (ivOutOf (Keithley_VOLTAGE_SWEEP_IV envW cfgIVW)).samples.map SampleIV.v =
      (List.range ((⌊(cfgIVW.Vmax - cfgIVW.Vmin) / cfgIVW.step_size⌋ + 1).toNat)).map
        (fun i : ℕ => cfgIVW.Vmin + (i : ℚ) * cfgIVW.step_size) ∧
    ((ivOutOf (Keithley_VOLTAGE_SWEEP_IV envW cfgIVW)).samples.map SampleIV.v).head? =
      some cfgIVW.Vmin ∧
    ((ivOutOf (Keithley_VOLTAGE_SWEEP_IV envW cfgIVW)).samples.map SampleIV.v).getLast? =
      some (cfgIVW.Vmin +
        ((⌊(cfgIVW.Vmax - cfgIVW.Vmin) / cfgIVW.step_size⌋ : ℤ) : ℚ) * cfgIVW.step_size) ∧
    sourVoltsOf (stOf (Keithley_VOLTAGE_SWEEP_IV envW cfgIVW)).trace =
      (List.range ((⌊(cfgIVW.Vmax - cfgIVW.Vmin) / cfgIVW.step_size⌋ + 1).toNat)).map
        (fun i : ℕ => cfgIVW.Vmin + (i : ℚ) * cfgIVW.step_size) ++ [0]) ∧
    (pointsInt cfgPVW.Vmin cfgPVW.Vmax cfgPVW.step_size =
      ⌊(cfgPVW.Vmax - cfgPVW.Vmin) / cfgPVW.step_size⌋ + 1 ∧
    (pvOutOf (Keithley_VOLTAGE_SWEEP_PV envW cfgPVW)).samples.map SamplePV.v =
      (List.range ((⌊(cfgPVW.Vmax - cfgPVW.Vmin) / cfgPVW.step_size⌋ + 1).toNat)).map
        (fun i : ℕ => cfgPVW.Vmin + (i : ℚ) * cfgPVW.step_size) ∧
    ((pvOutOf (Keithley_VOLTAGE_SWEEP_PV envW cfgPVW)).samples.map SamplePV.v).head? =
      some cfgPVW.Vmin ∧
    ((pvOutOf (Keithley_VOLTAGE_SWEEP_PV envW cfgPVW)).samples.map SamplePV.v).getLast? =
      some (cfgPVW.Vmin +
        ((⌊(cfgPVW.Vmax - cfgPVW.Vmin) / cfgPVW.step_size⌋ : ℤ) : ℚ) * cfgPVW.step_size) ∧
    sourVoltsOf (evTo .primary (stOf (Keithley_VOLTAGE_SWEEP_PV envW cfgPVW)).trace) =
      (List.range ((⌊(cfgPVW.Vmax - cfgPVW.Vmin) / cfgPVW.step_size⌋ + 1).toNat)).map
        (fun i : ℕ => cfgPVW.Vmin + (i : ℚ) * cfgPVW.step_size) ++ [0]) :=
  ⟨claim3_voltage_grid.1 envW cfgIVW (by norm_num [cfgIVW]) (by norm_num [cfgIVW])
    ⟨1, by norm_num [cfgIVW]⟩ (by with_unfolding_all rfl),
   claim3_voltage_grid.2 envW cfgPVW (by norm_num [cfgPVW]) (by norm_num [cfgPVW])
    ⟨1, by norm_num [cfgPVW]⟩ (by with_unfolding_all rfl)⟩


theorem flatMap_if_eq_filterMap {α β : Type} (l : List α) (c : α → Bool) (f : α → β) :
    (l.flatMap (fun a => if c a then [f a] else [])) =
      l.filterMap (fun a => if c a then some (f a) else none) := by
  induction l with
  | nil => rfl
  | cons a l ih =>
    rw [List.flatMap_cons, List.filterMap_cons]
    by_cases h : c a <;> simp [h, ih]

theorem filterMap_congr_left {α β : Type} {l : List α} {f g : α → Option β}
    (h : ∀ a ∈ l, f a = g a) : l.filterMap f = l.filterMap g := by
  induction l with
  | nil => rfl
  | cons a l ih =>
    rw [List.filterMap_cons, List.filterMap_cons, h a (by simp),
      ih (fun a ha => h a (by simp [ha]))]

/-- C7: in every successfully completing sweep of either engine, a progress
observation is emitted exactly at the whole-number commanded voltages; the
single-instrument engine emits the voltage with the primary current and the
dual-instrument engine the swept voltage with the secondary current. -/
theorem claim7_progress_iff_whole :
    (∀ (env : Env) (p : IVParams), runOk (Keithley_VOLTAGE_SWEEP_IV env p) = true →
      (ivOutOf (Keithley_VOLTAGE_SWEEP_IV env p)).progress =
        (ivOutOf (Keithley_VOLTAGE_SWEEP_IV env p)).samples.filterMap
          (fun sp => if isWhole sp.v then some (sp.v, sp.c) else none)) ∧
    (∀ (env : Env) (p : PVParams), runOk (Keithley_VOLTAGE_SWEEP_PV env p) = true →
      (pvOutOf (Keithley_VOLTAGE_SWEEP_PV env p)).progress =
        (pvOutOf (Keithley_VOLTAGE_SWEEP_PV env p)).samples.filterMap
          (fun sp => if isWhole sp.v then some (sp.v, sp.c1) else none)) := by
  constructor
  · intro env p hok
    cases hr : Keithley_VOLTAGE_SWEEP_IV env p with
    | error e => rw [hr] at hok; simp [runOk] at hok
    | ok os =>
      obtain ⟨out, s'⟩ := os
      obtain ⟨-, -, hout, -⟩ := ivRun_ok_inv env p hr
      simp only [ivOutOf]
      rw [hout, ivOutSpec]
      simp only [List.filterMap_map]
      have hfun : (fun j => ivProgSpec env p.Vmin p.step_size (0 + j) (0 + j)) =
          fun j : ℕ => if isWhole (p.Vmin + ((0 + j : ℕ) : ℚ) * p.step_size) then
            [(p.Vmin + ((0 + j : ℕ) : ℚ) * p.step_size, (q1 env (0 + j)).getD 0)]
          else [] := funext fun j => rfl
      rw [hfun, flatMap_if_eq_filterMap]
      exact filterMap_congr_left (fun j _ => rfl)
  · intro env p hok
    cases hr : Keithley_VOLTAGE_SWEEP_PV env p with
    | error e => rw [hr] at hok; simp [runOk] at hok
    | ok os =>
      obtain ⟨out, s'⟩ := os
      obtain ⟨-, hout, -⟩ := pvRun_ok_inv env p hr
      simp only [pvOutOf]
      rw [hout, pvOutSpec]
      simp only [List.filterMap_map]
      have hfun : (fun j => pvProgSpec env p.Vmin p.step_size (0 + j) (0 + 3 * j)) =
          fun j : ℕ => if isWhole (p.Vmin + ((0 + j : ℕ) : ℚ) * p.step_size) then
            [(p.Vmin + ((0 + j : ℕ) : ℚ) * p.step_size, (q1 env (0 + 3 * j + 2)).getD 0)]
          else [] := funext fun j => rfl
      rw [hfun, flatMap_if_eq_filterMap]
      exact filterMap_congr_left (fun j _ => rfl)

theorem claim7_progress_iff_whole_witness :
    ((ivOutOf (Keithley_VOLTAGE_SWEEP_IV envW cfgIVW)).progress =
      (ivOutOf (Keithley_VOLTAGE_SWEEP_IV envW cfgIVW)).samples.filterMap
        (fun sp => if isWhole sp.v then some (sp.v, sp.c) else none)) ∧
    ((pvOutOf (Keithley_VOLTAGE_SWEEP_PV envW cfgPVW)).progress =
      (pvOutOf (Keithley_VOLTAGE_SWEEP_PV envW cfgPVW)).samples.filterMap
        (fun sp => if isWhole sp.v then some (sp.v, sp.c1) else none)) :=
  ⟨claim7_progress_iff_whole.1 envW cfgIVW (by with_unfolding_all rfl),
   claim7_progress_iff_whole.2 envW cfgPVW (by with_unfolding_all rfl)⟩



/-- C9: within a single successfully completing sweep of either engine, the
recorded elapsed-time values form a non-decreasing sequence, provided the
wall clock is monotone. -/
theorem claim9_time_monotone :
    (∀ (env : Env) (p : IVParams), Monotone env.clock →
      runOk (Keithley_VOLTAGE_SWEEP_IV env p) = true →
      List.Pairwise (· ≤ ·) ((ivOutOf (Keithley_VOLTAGE_SWEEP_IV env p)).samples.map
        SampleIV.t)) ∧
    (∀ (env : Env) (p : PVParams), Monotone env.clock →
      runOk (Keithley_VOLTAGE_SWEEP_PV env p) = true →
      List.Pairwise (· ≤ ·) ((pvOutOf (Keithley_VOLTAGE_SWEEP_PV env p)).samples.map
        SamplePV.t)) := by
  constructor
  · intro env p hm hok
    cases hr : Keithley_VOLTAGE_SWEEP_IV env p with
    | error e => rw [hr] at hok; simp [runOk] at hok
    | ok os =>
      obtain ⟨out, s'⟩ := os
      obtain ⟨-, -, hout, -⟩ := ivRun_ok_inv env p hr
      simp only [ivOutOf]
      rw [hout, ivOutSpec]
      simp only [List.map_map]
      rw [List.pairwise_map]
      refine (List.pairwise_lt_range _).imp ?_
      intro a b hab
      simp only [Function.comp, ivSampleSpec]
      exact sub_le_sub_right (hm (by omega)) _
  · intro env p hm hok
    cases hr : Keithley_VOLTAGE_SWEEP_PV env p with
    | error e => rw [hr] at hok; simp [runOk] at hok
    | ok os =>
      obtain ⟨out, s'⟩ := os
      obtain ⟨-, hout, -⟩ := pvRun_ok_inv env p hr
      simp only [pvOutOf]
      rw [hout, pvOutSpec]
      simp only [List.map_map]
      rw [List.pairwise_map]
      refine (List.pairwise_lt_range _).imp ?_
      intro a b hab
      simp only [Function.comp, pvSampleSpec]
      exact sub_le_sub_right (hm (by omega)) _

theorem claim9_time_monotone_witness :
    List.Pairwise (· ≤ ·) ((ivOutOf (Keithley_VOLTAGE_SWEEP_IV envW cfgIVW)).samples.map
      SampleIV.t) ∧
    List.Pairwise (· ≤ ·) ((pvOutOf (Keithley_VOLTAGE_SWEEP_PV envW cfgPVW)).samples.map
      SamplePV.t) :=
  ⟨claim9_time_monotone.1 envW cfgIVW
      (fun a b h => by
        show ((a : ℕ) : ℚ) ≤ ((b : ℕ) : ℚ)
        exact_mod_cast h)
      (by with_unfolding_all rfl),
   claim9_time_monotone.2 envW cfgPVW
      (fun a b h => by
        show ((a : ℕ) : ℚ) ≤ ((b : ℕ) : ℚ)
        exact_mod_cast h)
      (by with_unfolding_all rfl)⟩



/-- C4: in every successfully completing dual-instrument sweep, each
iteration commands the primary to the swept voltage, reads the primary
current at index 1 of its query, reads the secondary voltage (index 0) and
secondary current (index 1) through two separate queries, and appends one
row with power, secondary power and cross power derived as the respective
products. -/
theorem claim4_dual_iteration :
    ∀ (env : Env) (p : PVParams), runOk (Keithley_VOLTAGE_SWEEP_PV env p) = true →
      (∀ (j : ℕ) (sp : SamplePV),
        (pvOutOf (Keithley_VOLTAGE_SWEEP_PV env p)).samples[j]? = some sp →
        ∃ c v1 c1, q1 env (3 * j) = some c ∧ q0 env (3 * j + 1) = some v1 ∧
          q1 env (3 * j + 2) = some c1 ∧
          sp = ⟨env.clock (1 + j) - env.clock 0, p.Vmin + (j : ℚ) * p.step_size, c,
            (p.Vmin + (j : ℚ) * p.step_size) * c, v1, c1, v1 * c1,
            (p.Vmin + (j : ℚ) * p.step_size) * c1⟩) ∧
      ∃ mid, (stOf (Keithley_VOLTAGE_SWEEP_PV env p)).trace = pvPre p ++ mid ++ pvShut ∧
        mid = (List.range (pvN p)).flatMap (fun j : ℕ =>
          [Event.write .primary (.sourVolt (p.Vmin + (j : ℚ) * p.step_size)),
           Event.query .primary ((env.qresp (3 * j)).getD []),
           Event.query .secondary ((env.qresp (3 * j + 1)).getD []),
           Event.query .secondary ((env.qresp (3 * j + 2)).getD [])]) := by
  intro env p hok
  cases hr : Keithley_VOLTAGE_SWEEP_PV env p with
  | error e => rw [hr] at hok; simp [runOk] at hok
  | ok os =>
    obtain ⟨out, s'⟩ := os
    obtain ⟨hgood, hout, htr⟩ := pvRun_ok_inv env p hr
    constructor
    · intro j sp hsp
      simp only [pvOutOf] at hsp
      rw [hout, pvOutSpec] at hsp
      by_cases hj : j < pvN p
      · rw [List.getElem?_map, List.getElem?_range hj] at hsp
        simp only [Option.map_some'] at hsp
        obtain ⟨-, hb, hcq, hd⟩ := hgood j (by simpa [pvS2] using hj)
        obtain ⟨c, hc⟩ := Option.isSome_iff_exists.mp hb
        obtain ⟨v1, hv1⟩ := Option.isSome_iff_exists.mp hcq
        obtain ⟨c1, hc1⟩ := Option.isSome_iff_exists.mp hd
        simp only [pvS2] at hc hv1 hc1
        refine ⟨c, v1, c1, by simpa using hc, by simpa using hv1, by simpa using hc1, ?_⟩
        obtain rfl := Option.some.inj hsp
        rw [pvSampleSpec]
        simp only [Nat.zero_add] at hc hv1 hc1 ⊢
        rw [hc, hv1, hc1]
        simp
      · rw [List.getElem?_map, List.getElem?_eq_none (by simpa using not_lt.mp hj)] at hsp
        cases hsp
    · refine ⟨(List.range (pvN p)).flatMap
        (fun j => pvIterTrace env p.Vmin p.step_size (0 + j) (0 + 3 * j)), ?_, ?_⟩
      · simp only [stOf]
        rw [htr, List.append_assoc]
      · refine congrArg _ (funext fun j => ?_)
        rw [pvIterTrace]
        simp


theorem claim4_dual_iteration_witness :
    (∃ c v1 c1, q1 envW (3 * 0) = some c ∧ q0 envW (3 * 0 + 1) = some v1 ∧
      q1 envW (3 * 0 + 2) = some c1 ∧
      (⟨1, 0, 3, 0, 5, 3, 15, 0⟩ : SamplePV) =
        ⟨envW.clock (1 + 0) - envW.clock 0,
          cfgPVW.Vmin + ((0 : ℕ) : ℚ) * cfgPVW.step_size, c,
          (cfgPVW.Vmin + ((0 : ℕ) : ℚ) * cfgPVW.step_size) * c, v1, c1, v1 * c1,
          (cfgPVW.Vmin + ((0 : ℕ) : ℚ) * cfgPVW.step_size) * c1⟩) ∧
    (∃ mid, (stOf (Keithley_VOLTAGE_SWEEP_PV envW cfgPVW)).trace =
        pvPre cfgPVW ++ mid ++ pvShut ∧
      mid = (List.range (pvN cfgPVW)).flatMap (fun j : ℕ =>
        [Event.write .primary (.sourVolt (cfgPVW.Vmin + (j : ℚ) * cfgPVW.step_size)),
         Event.query .primary ((envW.qresp (3 * j)).getD []),
         Event.query .secondary ((envW.qresp (3 * j + 1)).getD []),
         Event.query .secondary ((envW.qresp (3 * j + 2)).getD [])])) :=
  ⟨(claim4_dual_iteration envW cfgPVW (by with_unfolding_all rfl)).1 0
      ⟨1, 0, 3, 0, 5, 3, 15, 0⟩ (by with_unfolding_all rfl),
   (claim4_dual_iteration envW cfgPVW (by with_unfolding_all rfl)).2⟩

/-- C5: in every successfully completing dual-instrument sweep, the engine
first enables both outputs, commands the secondary to its static bias and
sets the secondary compliance; during the whole stepping loop no write is
issued to the secondary instrument, so its commanded bias stays constant. -/
theorem claim5_secondary_static :
    ∀ (env : Env) (p : PVParams), runOk (Keithley_VOLTAGE_SWEEP_PV env p) = true →
      ∃ mid, (stOf (Keithley_VOLTAGE_SWEEP_PV env p)).trace =
        ([Event.write .primary (.outp true), Event.write .secondary (.outp true),
          Event.write .secondary (.sourVolt p.read_bias),
          Event.write .secondary (.sensCurrProt p.compliance_read)] ++ mid) ++
          [Event.write .primary (.sourVolt 0), Event.write .secondary (.sourVolt 0),
           Event.write .primary (.outp false), Event.write .secondary (.outp false)] ∧
        ∀ c : Cmd, Event.write .secondary c ∉ mid := by
  intro env p hok
  cases hr : Keithley_VOLTAGE_SWEEP_PV env p with
  | error e => rw [hr] at hok; simp [runOk] at hok
  | ok os =>
    obtain ⟨out, s'⟩ := os
    obtain ⟨-, -, htr⟩ := pvRun_ok_inv env p hr
    refine ⟨(List.range (pvN p)).flatMap
      (fun j => pvIterTrace env p.Vmin p.step_size (0 + j) (0 + 3 * j)), ?_, ?_⟩
    · simp only [stOf]
      rw [htr, pvPre, pvShut]
    · intro c hc
      obtain ⟨j, -, hj⟩ := List.mem_flatMap.mp hc
      rw [pvIterTrace] at hj
      simp at hj

theorem claim5_secondary_static_witness :
    ∃ mid, (stOf (Keithley_VOLTAGE_SWEEP_PV envW cfgPVW)).trace =
      ([Event.write .primary (.outp true), Event.write .secondary (.outp true),
        Event.write .secondary (.sourVolt cfgPVW.read_bias),
        Event.write .secondary (.sensCurrProt cfgPVW.compliance_read)] ++ mid) ++
        [Event.write .primary (.sourVolt 0), Event.write .secondary (.sourVolt 0),
         Event.write .primary (.outp false), Event.write .secondary (.outp false)] ∧
      ∀ c : Cmd, Event.write .secondary c ∉ mid :=
  claim5_secondary_static envW cfgPVW (by with_unfolding_all rfl)



/-- C8: if an instrument operation fails during the stepping loop of either
engine, the run surfaces that very error with the state at the failure: no
further instrument command is issued — the trace beyond the pre-loop setup
holds only loop interactions, and in particular no disable-output command
was ever issued. -/
theorem claim8_error_no_shutdown :
    (∀ (env : Env) (p : IVParams) (e : Err × St), env.wok 0 = true →
      ivLoop env p.Vmin p.step_size (env.clock 0) (ivN p) 0 ivS2 = .error e →
      Keithley_VOLTAGE_SWEEP_IV env p = .error e ∧
      ∃ ext, e.2.trace = [Event.write .primary (.outp true)] ++ ext ∧
        (∀ ev ∈ ext, (∃ v, ev = Event.write .primary (.sourVolt v)) ∨
          ∃ xs, ev = Event.query .primary xs) ∧
        ∀ d : DevId, Event.write d (.outp false) ∉ e.2.trace) ∧
    (∀ (env : Env) (p : PVParams) (e : Err × St), (∀ j, j < 4 → env.wok j = true) →
      pvLoop env p.Vmin p.step_size (env.clock 0) (pvN p) 0 (pvS2 p) = .error e →
      Keithley_VOLTAGE_SWEEP_PV env p = .error e ∧
      ∃ ext, e.2.trace = pvPre p ++ ext ∧
        (∀ ev ∈ ext, (∃ v, ev = Event.write .primary (.sourVolt v)) ∨
          (∃ xs, ev = Event.query .primary xs) ∨ ∃ xs, ev = Event.query .secondary xs) ∧
        ∀ d : DevId, Event.write d (.outp false) ∉ e.2.trace) := by
  constructor
  · intro env p e hw0 hloop
    refine ⟨ivRun_err_prop env p hw0 hloop, ?_⟩
    obtain ⟨ext, hext, hev⟩ :=
      ivLoop_err_trace env p.Vmin p.step_size (env.clock 0) _ _ _ _ hloop
    rw [ivS2] at hext
    refine ⟨ext, hext, hev, ?_⟩
    intro d hd
    rw [hext] at hd
    rcases List.mem_append.mp hd with h1 | h1
    · simp at h1
    · rcases hev _ h1 with ⟨v, hv⟩ | ⟨xs, hxs⟩ <;> simp_all
  · intro env p e hw hloop
    refine ⟨pvRun_err_prop env p hw hloop, ?_⟩
    obtain ⟨ext, hext, hev⟩ :=
      pvLoop_err_trace env p.Vmin p.step_size (env.clock 0) _ _ _ _ hloop
    rw [pvS2] at hext
    refine ⟨ext, hext, hev, ?_⟩
    intro d hd
    rw [hext] at hd
    rcases List.mem_append.mp hd with h1 | h1
    · rw [pvPre] at h1
      simp at h1
    · rcases hev _ h1 with ⟨v, hv⟩ | ⟨xs, hxs⟩ | ⟨xs, hxs⟩ <;> simp_all

theorem claim8_error_no_shutdown_witness :
    (Keithley_VOLTAGE_SWEEP_IV envE cfgIVW =
      .error (.transport, ⟨2, 0, 2, [Event.write .primary (.outp true),
        Event.write .primary (.sourVolt 0)]⟩) ∧
      ∃ ext, (⟨2, 0, 2, [Event.write .primary (.outp true),
          Event.write .primary (.sourVolt 0)]⟩ : St).trace =
        [Event.write .primary (.outp true)] ++ ext ∧
        (∀ ev ∈ ext, (∃ v, ev = Event.write .primary (.sourVolt v)) ∨
          ∃ xs, ev = Event.query .primary xs) ∧
        ∀ d : DevId, Event.write d (.outp false) ∉
          (⟨2, 0, 2, [Event.write .primary (.outp true),
            Event.write .primary (.sourVolt 0)]⟩ : St).trace) ∧
    (Keithley_VOLTAGE_SWEEP_PV envE cfgPVW =
      .error (.transport, ⟨5, 0, 2, pvPre cfgPVW ++
        [Event.write .primary (.sourVolt 0)]⟩) ∧
      ∃ ext, (⟨5, 0, 2, pvPre cfgPVW ++
          [Event.write .primary (.sourVolt 0)]⟩ : St).trace = pvPre cfgPVW ++ ext ∧
        (∀ ev ∈ ext, (∃ v, ev = Event.write .primary (.sourVolt v)) ∨
          (∃ xs, ev = Event.query .primary xs) ∨ ∃ xs, ev = Event.query .secondary xs) ∧
        ∀ d : DevId, Event.write d (.outp false) ∉
          (⟨5, 0, 2, pvPre cfgPVW ++
            [Event.write .primary (.sourVolt 0)]⟩ : St).trace) :=
  ⟨claim8_error_no_shutdown.1 envE cfgIVW
      (.transport, ⟨2, 0, 2, [Event.write .primary (.outp true),
        Event.write .primary (.sourVolt 0)]⟩)
      (by with_unfolding_all rfl) (by with_unfolding_all rfl),
   claim8_error_no_shutdown.2 envE cfgPVW
      (.transport, ⟨5, 0, 2, pvPre cfgPVW ++ [Event.write .primary (.sourVolt 0)]⟩)
      (fun j hj => by with_unfolding_all rfl) (by with_unfolding_all rfl)⟩



theorem q1_eq_some {env : Env} {n : Nat} {c : ℚ} (h : q1 env n = some c) :
    ∃ xs, env.qresp n = some xs ∧ xs[1]? = some c := by
  rw [q1] at h
  cases hq : env.qresp n with
  | none => rw [hq] at h; cases h
  | some xs =>
    rw [hq] at h
    simp only [Option.some_bind] at h
    exact ⟨xs, rfl, h⟩

theorem q0_eq_some {env : Env} {n : Nat} {c : ℚ} (h : q0 env n = some c) :
    ∃ xs, env.qresp n = some xs ∧ xs[0]? = some c := by
  rw [q0] at h
  cases hq : env.qresp n with
  | none => rw [hq] at h; cases h
  | some xs =>
    rw [hq] at h
    simp only [Option.some_bind] at h
    exact ⟨xs, rfl, h⟩

/-- C10: each per-iteration current reading of either engine is element 1 of
its `:READ?` response (and the dual secondary voltage element 0 of its own
query); when every response holds at least two values the `IndexError`
branch is unreachable, and a too-short first response makes the
single-instrument run fail with an `IndexError` before any row is
delivered. -/
theorem claim10_response_indexing :
    (∀ (env : Env) (p : IVParams), runOk (Keithley_VOLTAGE_SWEEP_IV env p) = true →
      ∀ (j : ℕ) (sp : SampleIV),
        (ivOutOf (Keithley_VOLTAGE_SWEEP_IV env p)).samples[j]? = some sp →
        ∃ xs, env.qresp j = some xs ∧ xs[1]? = some sp.c) ∧
    (∀ (env : Env) (p : PVParams), runOk (Keithley_VOLTAGE_SWEEP_PV env p) = true →
      ∀ (j : ℕ) (sp : SamplePV),
        (pvOutOf (Keithley_VOLTAGE_SWEEP_PV env p)).samples[j]? = some sp →
        (∃ xs, env.qresp (3 * j) = some xs ∧ xs[1]? = some sp.c) ∧
        (∃ ys, env.qresp (3 * j + 1) = some ys ∧ ys[0]? = some sp.v1) ∧
        (∃ zs, env.qresp (3 * j + 2) = some zs ∧ zs[1]? = some sp.c1)) ∧
    (∀ env : Env, (∀ n xs, env.qresp n = some xs → 2 ≤ xs.length) →
      (∀ (p : IVParams) (s : St),
        Keithley_VOLTAGE_SWEEP_IV env p ≠ .error (.indexErr, s)) ∧
      (∀ (p : PVParams) (s : St),
        Keithley_VOLTAGE_SWEEP_PV env p ≠ .error (.indexErr, s))) ∧
    (∀ (env : Env) (p : IVParams) (xs : List ℚ), (∀ n, env.wok n = true) →
      env.qresp 0 = some xs → xs.length < 2 →
      1 ≤ pointsInt p.Vmin p.Vmax p.step_size →
      ∃ s, Keithley_VOLTAGE_SWEEP_IV env p = .error (.indexErr, s)) := by
  refine ⟨?_, ?_, ?_, ?_⟩
  · intro env p hok j sp hsp
    cases hr : Keithley_VOLTAGE_SWEEP_IV env p with
    | error e => rw [hr] at hok; simp [runOk] at hok
    | ok os =>
      obtain ⟨out, s'⟩ := os
      obtain ⟨-, hgood, hout, -⟩ := ivRun_ok_inv env p hr
      rw [hr] at hsp
      simp only [ivOutOf] at hsp
      rw [hout, ivOutSpec] at hsp
      by_cases hj : j < ivN p
      · rw [List.getElem?_map, List.getElem?_range hj] at hsp
        simp only [Option.map_some'] at hsp
        obtain ⟨-, hb⟩ := hgood j (by simpa [ivS2] using hj)
        obtain ⟨c, hc⟩ := Option.isSome_iff_exists.mp hb
        simp only [ivS2] at hc
        simp only [Nat.zero_add] at hc
        obtain ⟨xs, hxs, hx1⟩ := q1_eq_some hc
        refine ⟨xs, hxs, ?_⟩
        obtain rfl := Option.some.inj hsp
        rw [ivSampleSpec]
        simp only [Nat.zero_add]
        rw [hc]
        simpa using hx1
      · rw [List.getElem?_map, List.getElem?_eq_none (by simpa using not_lt.mp hj)] at hsp
        cases hsp
  · intro env p hok j sp hsp
    cases hr : Keithley_VOLTAGE_SWEEP_PV env p with
    | error e => rw [hr] at hok; simp [runOk] at hok
    | ok os =>
      obtain ⟨out, s'⟩ := os
      obtain ⟨hgood, hout, -⟩ := pvRun_ok_inv env p hr
      rw [hr] at hsp
      simp only [pvOutOf] at hsp
      rw [hout, pvOutSpec] at hsp
      by_cases hj : j < pvN p
      · rw [List.getElem?_map, List.getElem?_range hj] at hsp
        simp only [Option.map_some'] at hsp
        obtain ⟨-, hb, hcq, hd⟩ := hgood j (by simpa [pvS2] using hj)
        obtain ⟨c, hc⟩ := Option.isSome_iff_exists.mp hb
        obtain ⟨v1, hv1⟩ := Option.isSome_iff_exists.mp hcq
        obtain ⟨c1, hc1⟩ := Option.isSome_iff_exists.mp hd
        simp only [pvS2, Nat.zero_add] at hc hv1 hc1
        obtain ⟨xs, hxs, hx1⟩ := q1_eq_some hc
        obtain ⟨ys, hys, hy0⟩ := q0_eq_some hv1
        obtain ⟨zs, hzs, hz1⟩ := q1_eq_some hc1
        obtain rfl := Option.some.inj hsp
        rw [pvSampleSpec]
        simp only [Nat.zero_add]
        rw [hc, hv1, hc1]
        refine ⟨⟨xs, hxs, by simpa using hx1⟩, ⟨ys, hys, by simpa using hy0⟩,
          ⟨zs, hzs, by simpa using hz1⟩⟩
      · rw [List.getElem?_map, List.getElem?_eq_none (by simpa using not_lt.mp hj)] at hsp
        cases hsp
  · intro env hlen
    constructor
    · intro p s h
      obtain ⟨n, xs, hxs, hshort⟩ := ivRun_err_kind env p h rfl
      have := hlen n xs hxs
      omega
    · intro p s h
      obtain ⟨n, xs, hxs, hshort⟩ := pvRun_err_kind env p h rfl
      have := hlen n xs hxs
      omega
  · intro env p xs hw hq0 hshort hpos
    have hm : ∃ m, (pointsInt p.Vmin p.Vmax p.step_size).toNat = m + 1 :=
      ⟨(pointsInt p.Vmin p.Vmax p.step_size).toNat - 1, by omega⟩
    obtain ⟨m, hm⟩ := hm
    rw [Keithley_VOLTAGE_SWEEP_IV, doWrite]
    simp only [St.init, hw, if_true, Nat.zero_add, List.nil_append, readTime]
    rw [hm, ivLoop, doWrite]
    simp only [hw, if_true, readTime, doQuery]
    simp only [hq0]
    have hnone : xs[1]? = none := List.getElem?_eq_none (by omega)
    simp only [hnone]
    exact ⟨_, rfl⟩



theorem claim10_response_indexing_witness :
    (∃ xs, envW.qresp 0 = some xs ∧ xs[1]? = some (⟨1, 0, 3, 0⟩ : SampleIV).c) ∧
    ((∃ xs, envW.qresp (3 * 0) = some xs ∧
        xs[1]? = some (⟨1, 0, 3, 0, 5, 3, 15, 0⟩ : SamplePV).c) ∧
      (∃ ys, envW.qresp (3 * 0 + 1) = some ys ∧
        ys[0]? = some (⟨1, 0, 3, 0, 5, 3, 15, 0⟩ : SamplePV).v1) ∧
      (∃ zs, envW.qresp (3 * 0 + 2) = some zs ∧
        zs[1]? = some (⟨1, 0, 3, 0, 5, 3, 15, 0⟩ : SamplePV).c1)) ∧
    Keithley_VOLTAGE_SWEEP_IV envW cfgIVW ≠ .error (.indexErr, St.init) ∧
    Keithley_VOLTAGE_SWEEP_PV envW cfgPVW ≠ .error (.indexErr, St.init) ∧
    (∃ s, Keithley_VOLTAGE_SWEEP_IV envS cfgIVW = .error (.indexErr, s)) := by
  have hlenW : ∀ n xs, envW.qresp n = some xs → 2 ≤ xs.length := by
    intro n xs h
    simp only [envW] at h
    obtain rfl := Option.some.inj h
    simp
  refine ⟨claim10_response_indexing.1 envW cfgIVW (by with_unfolding_all rfl) 0 ⟨1, 0, 3, 0⟩
      (by with_unfolding_all rfl),
    claim10_response_indexing.2.1 envW cfgPVW (by with_unfolding_all rfl) 0
      ⟨1, 0, 3, 0, 5, 3, 15, 0⟩ (by with_unfolding_all rfl),
    (claim10_response_indexing.2.2.1 envW hlenW).1 cfgIVW St.init,
    (claim10_response_indexing.2.2.1 envW hlenW).2 cfgPVW St.init,
    claim10_response_indexing.2.2.2 envS cfgIVW [7] (fun n => rfl) rfl (by decide)
      (by with_unfolding_all decide)⟩



/-- C2 counterexample: the single-instrument script's initializer does not
set the compliance limit to the script's configured compliance current of
0.10 A — it hard-codes 150 mA. -/
theorem claim2_init_compliance_cx :
    cmdWritesTo .primary (stOfI (initialize_Keithley_IV envW St.init)).trace ≠
      [Cmd.reset, Cmd.sourFuncVolt, Cmd.sourVolt 0, Cmd.sensCurrProt (1 / 10),
       Cmd.sensCurrRangAuto, Cmd.sensFuncCurr] := by
  with_unfolding_all decide

/-- C2 (amended): the dual-instrument initializer, given a compliance
current, issues exactly reset, source-function voltage, source voltage 0,
compliance = the given value, auto-ranging, sense current; the
single-instrument initializer issues the same sequence but with the
compliance limit fixed at 150 mA, taking no compliance argument. -/
theorem claim2_init_sequence_amended :
    (∀ (env : Env) (d : DevId) (cc : ℚ) (s : St),
      runOk (initialize_Keithley_PV env d cc s) = true →
      cmdWritesTo d (stOfI (initialize_Keithley_PV env d cc s)).trace =
        cmdWritesTo d s.trace ++ [Cmd.reset, Cmd.sourFuncVolt, Cmd.sourVolt 0,
          Cmd.sensCurrProt cc, Cmd.sensCurrRangAuto, Cmd.sensFuncCurr]) ∧
    (∀ (env : Env) (s : St), runOk (initialize_Keithley_IV env s) = true →
      cmdWritesTo .primary (stOfI (initialize_Keithley_IV env s)).trace =
        cmdWritesTo .primary s.trace ++ [Cmd.reset, Cmd.sourFuncVolt, Cmd.sourVolt 0,
          Cmd.sensCurrProt (150 / 1000), Cmd.sensCurrRangAuto, Cmd.sensFuncCurr]) := by
  constructor
  · intro env d cc s hok
    rw [initialize_Keithley_PV] at hok ⊢
    cases hq : doQuery env d s with
    | error e =>
      rw [hq] at hok
      replace hok : runOk (Except.error e : Except (Err × St) St) = true := hok
      simp [runOk] at hok
    | ok os =>
      obtain ⟨r, s1⟩ := os
      rw [hq] at hok
      obtain ⟨-, hs1⟩ := doQuery_ok hq
      subst hs1
      replace hok : runOk (writeSeq env
        [(d, Cmd.reset), (d, Cmd.sourFuncVolt), (d, Cmd.sourVolt 0),
         (d, Cmd.sensCurrProt cc), (d, Cmd.sensCurrRangAuto), (d, Cmd.sensFuncCurr)]
        (⟨s.wIdx, s.qIdx + 1, s.cIdx, s.trace ++ [Event.query d r]⟩ : St)) = true := hok
      show cmdWritesTo d (stOfI (writeSeq env
        [(d, Cmd.reset), (d, Cmd.sourFuncVolt), (d, Cmd.sourVolt 0),
         (d, Cmd.sensCurrProt cc), (d, Cmd.sensCurrRangAuto), (d, Cmd.sensFuncCurr)]
        (⟨s.wIdx, s.qIdx + 1, s.cIdx, s.trace ++ [Event.query d r]⟩ : St))).trace = _
      cases hws : writeSeq env
          [(d, Cmd.reset), (d, Cmd.sourFuncVolt), (d, Cmd.sourVolt 0),
           (d, Cmd.sensCurrProt cc), (d, Cmd.sensCurrRangAuto), (d, Cmd.sensFuncCurr)]
          (⟨s.wIdx, s.qIdx + 1, s.cIdx, s.trace ++ [Event.query d r]⟩ : St) with
      | error e => rw [hws] at hok; simp [runOk] at hok
      | ok s2 =>
        have hs2 := writeSeq_ok_char env _ _ _ hws
        subst hs2
        simp only [stOfI]
        rw [cmdWritesTo, cmdWritesTo, List.filterMap_append, List.filterMap_append]
        simp [if_pos rfl]
  · intro env s hok
    rw [initialize_Keithley_IV] at hok ⊢
    cases hq : doQuery env .primary s with
    | error e =>
      rw [hq] at hok
      replace hok : runOk (Except.error e : Except (Err × St) St) = true := hok
      simp [runOk] at hok
    | ok os =>
      obtain ⟨r, s1⟩ := os
      rw [hq] at hok
      obtain ⟨-, hs1⟩ := doQuery_ok hq
      subst hs1
      replace hok : runOk (writeSeq env
        [(DevId.primary, Cmd.reset), (DevId.primary, Cmd.sourFuncVolt),
         (DevId.primary, Cmd.sourVolt 0), (DevId.primary, Cmd.sensCurrProt (150 / 1000)),
         (DevId.primary, Cmd.sensCurrRangAuto), (DevId.primary, Cmd.sensFuncCurr)]
        (⟨s.wIdx, s.qIdx + 1, s.cIdx, s.trace ++ [Event.query .primary r]⟩ : St)) = true := hok
      show cmdWritesTo .primary (stOfI (writeSeq env
        [(DevId.primary, Cmd.reset), (DevId.primary, Cmd.sourFuncVolt),
         (DevId.primary, Cmd.sourVolt 0), (DevId.primary, Cmd.sensCurrProt (150 / 1000)),
         (DevId.primary, Cmd.sensCurrRangAuto), (DevId.primary, Cmd.sensFuncCurr)]
        (⟨s.wIdx, s.qIdx + 1, s.cIdx, s.trace ++ [Event.query .primary r]⟩ : St))).trace = _
      cases hws : writeSeq env
          [(DevId.primary, Cmd.reset), (DevId.primary, Cmd.sourFuncVolt),
           (DevId.primary, Cmd.sourVolt 0), (DevId.primary, Cmd.sensCurrProt (150 / 1000)),
           (DevId.primary, Cmd.sensCurrRangAuto), (DevId.primary, Cmd.sensFuncCurr)]
          (⟨s.wIdx, s.qIdx + 1, s.cIdx, s.trace ++ [Event.query .primary r]⟩ : St) with
      | error e => rw [hws] at hok; simp [runOk] at hok
      | ok s2 =>
        have hs2 := writeSeq_ok_char env _ _ _ hws
        subst hs2
        simp only [stOfI]
        rw [cmdWritesTo, cmdWritesTo, List.filterMap_append, List.filterMap_append]
        simp [if_pos rfl]

theorem claim2_init_sequence_amended_witness :
    (cmdWritesTo .secondary
        (stOfI (initialize_Keithley_PV envW .secondary (1 / 10) St.init)).trace =
      cmdWritesTo .secondary St.init.trace ++ [Cmd.reset, Cmd.sourFuncVolt, Cmd.sourVolt 0,
        Cmd.sensCurrProt (1 / 10), Cmd.sensCurrRangAuto, Cmd.sensFuncCurr]) ∧
    (cmdWritesTo .primary (stOfI (initialize_Keithley_IV envW St.init)).trace =
      cmdWritesTo .primary St.init.trace ++ [Cmd.reset, Cmd.sourFuncVolt, Cmd.sourVolt 0,
        Cmd.sensCurrProt (150 / 1000), Cmd.sensCurrRangAuto, Cmd.sensFuncCurr]) :=
  ⟨claim2_init_sequence_amended.1 envW .secondary (1 / 10) St.init (by with_unfolding_all rfl),
   claim2_init_sequence_amended.2 envW St.init (by with_unfolding_all rfl)⟩



/-- C6: each persisted file consists of the banner/metadata preamble with a
`Type` line naming `iv-sweep` resp. `pv-sweep`, a blank line, the
tab-separated header, and exactly one row per recorded point in sweep
order, each row formatting the time to six decimal places, the voltage(s)
to two, and every current and power in scientific notation with six
fractional digits. -/
theorem claim6_file_format :
    (∀ out : IVOut,
      (ivFileLines out).length = 6 + out.samples.length ∧
      (ivFileLines out)[3]? = some "#! Type = iv-sweep" ∧
      (ivFileLines out)[4]? = some "" ∧
      (ivFileLines out)[5]? = some "t\t\tV\t\tI\t\tP" ∧
      ∀ j : ℕ, (ivFileLines out)[6 + j]? = (out.samples[j]?).map ivRow) ∧
    (∀ out : PVOut,
      (pvFileLines out).length = 6 + out.samples.length ∧
      (pvFileLines out)[3]? = some "#! Type = pv-sweep" ∧
      (pvFileLines out)[4]? = some "" ∧
      (pvFileLines out)[5]? = some "t\t\tV\t\tI\t\tP\t\tV1\t\tI1\t\tP1\t\tP2" ∧
      ∀ j : ℕ, (pvFileLines out)[6 + j]? = (out.samples[j]?).map pvRow) ∧
    (∀ sp : SampleIV, ivRow sp =
      fmtFixed 6 sp.t ++ "\t" ++ fmtFixed 2 sp.v ++ "\t" ++
        fmtSci 6 sp.c ++ "\t" ++ fmtSci 6 sp.p) ∧
    (∀ sp : SamplePV, pvRow sp =
      fmtFixed 6 sp.t ++ "\t" ++ fmtFixed 2 sp.v ++ "\t" ++
        fmtSci 6 sp.c ++ "\t" ++ fmtSci 6 sp.p ++ "\t" ++ fmtFixed 2 sp.v1 ++ "\t" ++
        fmtSci 6 sp.c1 ++ "\t" ++ fmtSci 6 sp.p1 ++ "\t" ++ fmtSci 6 sp.p2) := by
  refine ⟨?_, ?_, fun sp => rfl, fun sp => rfl⟩
  · intro out
    refine ⟨by simp [ivFileLines]; omega, rfl, rfl, by simp [ivFileLines], ?_⟩
    intro j
    rw [ivFileLines, List.getElem?_append_right (by simp)]
    simp [List.getElem?_map]
  · intro out
    refine ⟨by simp [pvFileLines]; omega, rfl, rfl, by simp [pvFileLines], ?_⟩
    intro j
    rw [pvFileLines, List.getElem?_append_right (by simp)]
    simp [List.getElem?_map]


end Keithley
